import Mathlib

/-!
Verification development for `updateAppcast.py`, a Sparkle appcast feed updater.

The program is embedded shallowly:

* Python `int(...)` parsing of version components is `pyint`;
* `version_to_tuple` and the tuple comparison used by `sorted(..., key=...,
  reverse=True)` are `version_to_tuple` and `tupLt` (Python compares tuples
  lexicographically, a strict prefix being smaller);
* the lxml element tree is the inductive `XNode`; namespace-qualified names
  (written in Clark notation in the source, for example the sparkle version
  attribute) are modelled by their serialized prefixed form `sparkle:version`,
  the prefix mapping declared on the root being the single fixed sparkle one;
* `sorted(items, key=get_version, reverse=True)` is a stable descending sort;
  it is embedded as `List.insertionSort` over the relation "key not below",
  which is the unique stable sort for that total preorder and therefore agrees
  with CPython's stable `sorted` with `reverse=True`;
* serialization (`etree.tostring` with pretty printing, an XML declaration and
  utf-8 encoding) and parsing (`etree.parse` with `remove_blank_text=True` and
  the default `strip_cdata` behaviour, which turns CDATA sections into plain
  text) are an executable renderer and a fuel-based executable parser over
  `List Char`;
* the effectful run (`add_update`) is state passing over a `World` holding the
  bytes at the appcast path and the readable artifact files, returning an
  `Except` of structured Python exceptions plus the trace of completed stages.
-/

namespace Appcast

/-! ## Python integer parsing (`int(component)` inside `version_to_tuple`) -/

/-- Characters stripped by Python `int(str)` before parsing (ASCII whitespace;
unicode whitespace is not modelled, no claim exercises it). -/
def isPySpace (c : Char) : Bool :=
  c = ' ' || c = '\t' || c = '\n' || c = '\r' || c = '\x0b' || c = '\x0c'

/-- Numeric value of an ASCII digit. -/
def digitVal (c : Char) : Option Nat :=
  if '0' ≤ c && c ≤ '9' then some (c.toNat - 48) else none

/-- Digits of an integer literal after the first one; Python 3 permits a single
underscore between two digits (`int("1_0") = 10`) but not leading, trailing or
doubled underscores. -/
def parseDigitsAcc : Nat → List Char → Option Nat
  | acc, [] => some acc
  | acc, '_' :: c :: cs =>
    match digitVal c with
    | some d => parseDigitsAcc (acc * 10 + d) cs
    | none => none
  | acc, c :: cs =>
    match digitVal c with
    | some d => parseDigitsAcc (acc * 10 + d) cs
    | none => none

/-- A nonempty run of digits (with optional inner underscores). -/
def parseUnsigned : List Char → Option Nat
  | [] => none
  | c :: cs =>
    match digitVal c with
    | some d => parseDigitsAcc d cs
    | none => none

/-- Strip `isPySpace` characters from both ends. -/
def pyStrip (s : List Char) : List Char :=
  ((s.dropWhile isPySpace).reverse.dropWhile isPySpace).reverse

/-- Model of Python `int(s)` for `str` input: strip whitespace, optional sign,
then a digit run; `none` models the `ValueError` that `version_to_tuple`
catches. -/
def pyint (s : String) : Option Int :=
  match pyStrip s.data with
  | '+' :: rest => (parseUnsigned rest).map (fun n => (n : Int))
  | '-' :: rest => (parseUnsigned rest).map (fun n => -(n : Int))
  | rest => (parseUnsigned rest).map (fun n => (n : Int))

/-! ## `version_to_tuple` (source lines 103-108) and Python tuple comparison -/

/-- Python `s.split('.')`: split at every dot, keeping empty parts. -/
def splitDotAux : List Char → List Char → List String
  | acc, [] => [String.mk acc.reverse]
  | acc, '.' :: rest => String.mk acc.reverse :: splitDotAux [] rest
  | acc, c :: rest => splitDotAux (c :: acc) rest

def splitDot (s : String) : List String := splitDotAux [] s.data

/-- Model of `version_to_tuple`: split on `.` and map `int` over the parts;
on any `ValueError` return `(0, 0)`.  (The `AttributeError` arm of the source
is for a non-`str` argument; every call site passes a `str`, the only caller
defaulting a missing attribute to the string `"0.0"`.) -/
def version_to_tuple (version_str : String) : List Int :=
  match (splitDot version_str).mapM pyint with
  | some parts => parts
  | none => [0, 0]

/-- Whether every dot-separated component of the version parses as an integer,
i.e. `tuple(map(int, s.split('.')))` succeeds. -/
def wellFormedVersion (s : String) : Bool :=
  ((splitDot s).mapM pyint).isSome

/-- Python `<` on integer tuples: lexicographic, a strict prefix being
smaller. -/
def tupLt : List Int → List Int → Bool
  | [], [] => false
  | [], _ :: _ => true
  | _ :: _, [] => false
  | a :: as, b :: bs => if a < b then true else if b < a then false else tupLt as bs

theorem tupLt_nil_nil : tupLt [] [] = false := rfl

theorem tupLt_nil_cons (y : Int) (ys : List Int) : tupLt [] (y :: ys) = true := rfl

theorem tupLt_cons_nil (x : Int) (xs : List Int) : tupLt (x :: xs) [] = false := rfl

theorem tupLt_cons_cons (x y : Int) (xs ys : List Int) :
    tupLt (x :: xs) (y :: ys) =
      if x < y then true else if y < x then false else tupLt xs ys := rfl

/-- The executable tuple comparison agrees with the mathematical lexicographic
order on integer sequences (`List.Lex (· < ·)`), under which a shorter tuple is
below any longer one sharing its leading components. -/
theorem tupLt_iff_lex : ∀ xs ys : List Int, tupLt xs ys = true ↔ List.Lex (· < ·) xs ys
  | [], [] => by
    rw [tupLt_nil_nil]
    exact iff_of_false (by simp) (fun h => by cases h)
  | [], y :: ys => by
    rw [tupLt_nil_cons]
    exact iff_of_true rfl List.Lex.nil
  | x :: xs, [] => by
    rw [tupLt_cons_nil]
    exact iff_of_false (by simp) (fun h => by cases h)
  | x :: xs, y :: ys => by
    rw [tupLt_cons_cons]
    by_cases hxy : x < y
    · rw [if_pos hxy]
      exact iff_of_true rfl (List.Lex.rel hxy)
    · rw [if_neg hxy]
      by_cases hyx : y < x
      · rw [if_pos hyx]
        refine iff_of_false (by decide) ?_
        intro h
        cases h with
        | cons h2 => omega
        | rel h2 => omega
      · rw [if_neg hyx]
        have hxy2 : x = y := by omega
        subst hxy2
        rw [tupLt_iff_lex xs ys]
        constructor
        · exact List.Lex.cons
        · intro h
          cases h with
          | cons h2 => exact h2
          | rel h2 => exact absurd h2 (lt_irrefl x)

theorem tupLt_irrefl (xs : List Int) : tupLt xs xs = false := by
  by_contra h
  have h2 : List.Lex (· < ·) xs xs := (tupLt_iff_lex xs xs).mp (by revert h; cases tupLt xs xs <;> simp)
  exact (List.Lex.isAsymm (α := Int) (· < ·)).asymm _ _ h2 h2

theorem tupLt_asymm {xs ys : List Int} (h : tupLt xs ys = true) : tupLt ys xs = false := by
  by_contra h2
  have h2' : tupLt ys xs = true := by revert h2; cases tupLt ys xs <;> simp
  exact (List.Lex.isAsymm (α := Int) (· < ·)).asymm _ _
    ((tupLt_iff_lex xs ys).mp h) ((tupLt_iff_lex ys xs).mp h2')

theorem tupLt_total_eq {xs ys : List Int} (h1 : tupLt xs ys = false)
    (h2 : tupLt ys xs = false) : xs = ys := by
  rcases (List.Lex.isTrichotomous (α := Int) (· < ·)).trichotomous xs ys with h | h | h
  · rw [(tupLt_iff_lex xs ys).mpr h] at h1
    exact absurd h1 (by simp)
  · exact h
  · rw [(tupLt_iff_lex ys xs).mpr h] at h2
    exact absurd h2 (by simp)

theorem tupLt_trans {xs ys zs : List Int} (h1 : tupLt xs ys = true)
    (h2 : tupLt ys zs = true) : tupLt xs zs = true := by
  haveI : IsTrans (List Int) (List.Lex (· < ·)) :=
    (List.Lex.isStrictTotalOrder (α := Int) (· < ·)).toIsTrans
  exact (tupLt_iff_lex xs zs).mpr
    (Trans.trans ((tupLt_iff_lex xs ys).mp h1) ((tupLt_iff_lex ys zs).mp h2))

/-! ## The lxml element tree -/

/-- An lxml node: an element with its tag, ordered attributes and child nodes,
or a run of character data (`isCData` marks text assigned through
`etree.CDATA`, which serializes as a CDATA section). -/
inductive XNode where
  | elem (tag : String) (attrs : List (String × String)) (children : List XNode)
  | text (content : String) (isCData : Bool)
deriving Repr

mutual
def xeq : XNode → XNode → Bool
  | .elem t1 a1 c1, .elem t2 a2 c2 => t1 == t2 && a1 == a2 && xeqList c1 c2
  | .text s1 b1, .text s2 b2 => s1 == s2 && b1 == b2
  | _, _ => false
def xeqList : List XNode → List XNode → Bool
  | [], [] => true
  | x :: xs, y :: ys => xeq x y && xeqList xs ys
  | _, _ => false
end

mutual
theorem xeq_iff : ∀ a b : XNode, xeq a b = true ↔ a = b
  | .elem t1 a1 c1, .elem t2 a2 c2 => by
    simp [xeq, xeqList_iff c1 c2, and_assoc]
  | .elem _ _ _, .text _ _ => by simp [xeq]
  | .text _ _, .elem _ _ _ => by simp [xeq]
  | .text s1 b1, .text s2 b2 => by simp [xeq]
theorem xeqList_iff : ∀ as bs : List XNode, xeqList as bs = true ↔ as = bs
  | [], [] => by simp [xeqList]
  | [], _ :: _ => by simp [xeqList]
  | _ :: _, [] => by simp [xeqList]
  | x :: xs, y :: ys => by
    simp [xeqList, xeq_iff x y, xeqList_iff xs ys]
end

instance : DecidableEq XNode := fun a b => decidable_of_iff (xeq a b = true) (xeq_iff a b)

/-- Whether a node is an element with the given tag. -/
def hasTag (tag : String) : XNode → Bool
  | .elem t _ _ => t == tag
  | .text _ _ => false

/-- Whether a node is an element. -/
def isElemNode : XNode → Bool
  | .elem _ _ _ => true
  | .text _ _ => false

/-- Whether a node is a text node. -/
def isTextNode : XNode → Bool
  | .elem _ _ _ => false
  | .text _ _ => true

/-- Model of `element.find(tag)` for a plain child tag: the first direct child
element with that tag, `None` when there is none. -/
def findChild (x : XNode) (tag : String) : Option XNode :=
  match x with
  | .text _ _ => none
  | .elem _ _ children => children.find? (hasTag tag)

/-- Model of `element.findall(tag)` for a plain child tag: all direct child
elements with that tag, in document order. -/
def findAllChildren (x : XNode) (tag : String) : List XNode :=
  match x with
  | .text _ _ => []
  | .elem _ _ children => children.filter (hasTag tag)

/-- Model of `element.get(key)`: the value of the attribute, `None` when
absent. -/
def getAttr (x : XNode) (key : String) : Option String :=
  match x with
  | .elem _ attrs _ => (attrs.find? (fun p => p.1 == key)).map (fun p => p.2)
  | .text _ _ => none

/-- Model of the `element.text` getter: the character data preceding any child
element, `None` when the element starts with a child element or is empty. -/
def elemText : XNode → Option String
  | .elem _ _ (.text s _ :: _) => some s
  | _ => none

/-- Model of `parent.append(child)` / `etree.SubElement(parent, ...)`:
the child goes to the end of the parent's children. -/
def appendChild (x : XNode) (c : XNode) : XNode :=
  match x with
  | .elem t a cs => .elem t a (cs ++ [c])
  | .text s f => .text s f

/-- Model of the loop `for existing_item in channel.findall('item'):
channel.remove(existing_item)`: drop every direct `item` child. -/
def removeItemChildren (x : XNode) : XNode :=
  match x with
  | .elem t a cs => .elem t a (cs.filter (fun c => !(hasTag "item" c)))
  | .text s f => .text s f

/-- Replace the first direct `channel` child of the root by a new node; this
realizes, in a functional state-passing style, that `channel` in the source is
an alias into the mutable `root` tree. -/
def replaceChannelAux : List XNode → XNode → List XNode
  | [], _ => []
  | c :: cs, nc => if hasTag "channel" c then nc :: cs else c :: replaceChannelAux cs nc

def replaceChannel (root : XNode) (newChannel : XNode) : XNode :=
  match root with
  | .elem t a cs => .elem t a (replaceChannelAux cs newChannel)
  | .text s f => .text s f

/-! ## `sort_items` (source lines 131-144) -/

/-- The sparkle namespace URI (`SPARKLE_NS` in the source). -/
def SPARKLE_NS : String := "http://www.andymatuschak.org/xml-namespaces/sparkle"

/-- Serialized form of a sparkle-namespaced name (the source writes it in
Clark notation over `SPARKLE_NS`). -/
def sparkleName (localName : String) : String := "sparkle:" ++ localName

/-- Model of the inner `get_version`: the parsed tuple of the enclosure's
sparkle version attribute, defaulting to `"0.0"` when the attribute is absent
and to `(0, 0)` when the item has no enclosure. -/
def get_version (item : XNode) : List Int :=
  match findChild item "enclosure" with
  | some enclosure => version_to_tuple ((getAttr enclosure (sparkleName "version")).getD "0.0")
  | none => [0, 0]

/-- The ordering passed to the stable sort: `a` may precede `b` when `a`'s key
is not strictly below `b`'s (descending order with ties keeping their original
relative position, which is what `sorted(..., reverse=True)` guarantees). -/
def itemGE (a b : XNode) : Prop := ¬ tupLt (get_version a) (get_version b) = true

instance : DecidableRel itemGE := fun _ _ => instDecidableNot

instance : IsTotal XNode itemGE := by
  constructor
  intro a b
  by_cases h : tupLt (get_version a) (get_version b) = true
  · right
    exact fun h2 => by rw [tupLt_asymm h] at h2; cases h2
  · left
    exact h

instance : IsTrans XNode itemGE := by
  constructor
  intro a b c hab hbc
  intro hac
  rcases (List.Lex.isTrichotomous (α := Int) (· < ·)).trichotomous
      (get_version a) (get_version b) with h | h | h
  · exact hab ((tupLt_iff_lex _ _).mpr h)
  · rw [h] at hac
    exact hbc hac
  · haveI : IsTrans (List Int) (List.Lex (· < ·)) :=
      (List.Lex.isStrictTotalOrder (α := Int) (· < ·)).toIsTrans
    exact hbc ((tupLt_iff_lex _ _).mpr
      (Trans.trans h ((tupLt_iff_lex _ _).mp hac)))

/-- Model of `sort_items` (lines 131-144): take the channel's direct `item`
children, return `[]` when there are none, otherwise sort them by parsed
version, descending, stably. -/
def sort_items (channel : XNode) : List XNode :=
  if (findAllChildren channel "item").isEmpty then []
  else List.insertionSort itemGE (findAllChildren channel "item")

theorem sort_items_sorted (channel : XNode) :
    (sort_items channel).Sorted itemGE := by
  unfold sort_items
  split
  · exact List.sorted_nil
  · exact List.sorted_insertionSort itemGE _

theorem sort_items_perm (channel : XNode) :
    List.Perm (sort_items channel) (findAllChildren channel "item") := by
  unfold sort_items
  split
  · simp_all [List.isEmpty_iff]
  · exact List.perm_insertionSort itemGE _

/-! ## SHA-256 (`hashlib.sha256`, source lines 56-65)

`calculate_file_hash` feeds the file's bytes through SHA-256 in 4096-byte
blocks; since the digest of a concatenation of reads equals the digest of the
whole byte string, the model hashes the whole content. -/

/-- Truncate to a 32-bit word. -/
def w32 (n : Nat) : Nat := n % 4294967296

/-- Right rotation of a 32-bit word. -/
def rotr (n x : Nat) : Nat := (x >>> n) + ((x % (1 <<< n)) <<< (32 - n))

def sig0 (x : Nat) : Nat := rotr 7 x ^^^ rotr 18 x ^^^ (x >>> 3)

def sig1 (x : Nat) : Nat := rotr 17 x ^^^ rotr 19 x ^^^ (x >>> 10)

def bigSig0 (x : Nat) : Nat := rotr 2 x ^^^ rotr 13 x ^^^ rotr 22 x

def bigSig1 (x : Nat) : Nat := rotr 6 x ^^^ rotr 11 x ^^^ rotr 25 x

def chf (x y z : Nat) : Nat := (x &&& y) ^^^ ((x ^^^ 4294967295) &&& z)

def maj (x y z : Nat) : Nat := (x &&& y) ^^^ (x &&& z) ^^^ (y &&& z)

/-- The 64 SHA-256 round constants. -/
def K256 : List Nat :=
  [1116352408, 1899447441, 3049323471, 3921009573, 961987163, 1508970993,
   2453635748, 2870763221, 3624381080, 310598401, 607225278, 1426881987,
   1925078388, 2162078206, 2614888103, 3248222580, 3835390401, 4022224774,
   264347078, 604807628, 770255983, 1249150122, 1555081692, 1996064986,
   2554220882, 2821834349, 2952996808, 3210313671, 3336571891, 3584528711,
   113926993, 338241895, 666307205, 773529912, 1294757372, 1396182291,
   1695183700, 1986661051, 2177026350, 2456956037, 2730485921, 2820302411,
   3259730800, 3345764771, 3516065817, 3600352804, 4094571909, 275423344,
   430227734, 506948616, 659060556, 883997877, 958139571, 1322822218,
   1537002063, 1747873779, 1955562222, 2024104815, 2227730452, 2361852424,
   2428436474, 2756734187, 3204031479, 3329325298]

/-- The eight-word working state. -/
structure H8 where
  a : Nat
  b : Nat
  c : Nat
  d : Nat
  e : Nat
  f : Nat
  g : Nat
  h : Nat
deriving Repr

def sha256init : H8 :=
  ⟨1779033703, 3144134277, 1013904242, 2773480762, 1359893119, 2600822924, 528734635, 1541459225⟩

/-- Group bytes into big-endian 32-bit words. -/
def toWords : List Nat → List Nat
  | a :: b :: c :: d :: rest => ((a <<< 24) + (b <<< 16) + (c <<< 8) + d) :: toWords rest
  | _ => []

/-- Extend the message schedule; the accumulator keeps the words generated so
far in reverse order, so `W[t-2]` is entry 1, `W[t-7]` entry 6, and so on. -/
def extendW : Nat → List Nat → List Nat
  | 0, acc => acc
  | n + 1, acc =>
    extendW n
      (w32 (sig1 (acc.getD 1 0) + acc.getD 6 0 + sig0 (acc.getD 14 0) + acc.getD 15 0) :: acc)

def compressStep (st : H8) (k : Nat) (w : Nat) : H8 :=
  let t1 := w32 (st.h + bigSig1 st.e + chf st.e st.f st.g + k + w)
  let t2 := w32 (bigSig0 st.a + maj st.a st.b st.c)
  ⟨w32 (t1 + t2), st.a, st.b, st.c, w32 (st.d + t1), st.e, st.f, st.g⟩

def compressFold : List (Nat × Nat) → H8 → H8
  | [], st => st
  | (k, w) :: rest, st => compressFold rest (compressStep st k w)

def sha256compress (hs : H8) (block : List Nat) : H8 :=
  let ws := (extendW 48 (toWords block).reverse).reverse
  let st := compressFold (K256.zip ws) hs
  ⟨w32 (hs.a + st.a), w32 (hs.b + st.b), w32 (hs.c + st.c), w32 (hs.d + st.d),
   w32 (hs.e + st.e), w32 (hs.f + st.f), w32 (hs.g + st.g), w32 (hs.h + st.h)⟩

/-- The standard padding: a `0x80` byte, zeros to 56 mod 64, then the bit
length as eight big-endian bytes. -/
def sha256pad (msg : List Nat) : List Nat :=
  let L := msg.length
  let bits := 8 * L
  msg ++ 128 :: List.replicate ((119 - (L % 64)) % 64) 0 ++
    [(bits >>> 56) % 256, (bits >>> 48) % 256, (bits >>> 40) % 256, (bits >>> 32) % 256,
     (bits >>> 24) % 256, (bits >>> 16) % 256, (bits >>> 8) % 256, bits % 256]

def sha256blocks : Nat → H8 → List Nat → H8
  | 0, hs, _ => hs
  | n + 1, hs, bytes => sha256blocks n (sha256compress hs (bytes.take 64)) (bytes.drop 64)

def hexDigitChar (n : Nat) : Char := if n < 10 then Char.ofNat (48 + n) else Char.ofNat (87 + n)

def wordHex (x : Nat) : List Char :=
  [hexDigitChar ((x >>> 28) % 16), hexDigitChar ((x >>> 24) % 16),
   hexDigitChar ((x >>> 20) % 16), hexDigitChar ((x >>> 16) % 16),
   hexDigitChar ((x >>> 12) % 16), hexDigitChar ((x >>> 8) % 16),
   hexDigitChar ((x >>> 4) % 16), hexDigitChar (x % 16)]

/-- Model of `hashlib.sha256(data).hexdigest()`. -/
def sha256hex (msg : List Nat) : String :=
  let padded := sha256pad msg
  let hs := sha256blocks (padded.length / 64) sha256init padded
  String.mk (wordHex hs.a ++ wordHex hs.b ++ wordHex hs.c ++ wordHex hs.d ++
    wordHex hs.e ++ wordHex hs.f ++ wordHex hs.g ++ wordHex hs.h)

/-! ## Serialization (`etree.tostring(root, encoding='utf-8',
xml_declaration=True, pretty_print=True)`, source lines 194-206)

The libxml2 writer escapes `&`, `<`, `>` (and `\r`) in character data, and
additionally `"` and whitespace controls in attribute values; it emits a
CDATA-flagged text as a literal CDATA section; with `pretty_print` each child
of a textless element goes on its own line indented by two spaces per level,
while an element containing character data is written inline. -/

def escapeTextChar (c : Char) : List Char :=
  if c = '&' then "&amp;".data
  else if c = '<' then "&lt;".data
  else if c = '>' then "&gt;".data
  else if c = '\r' then "&#13;".data
  else [c]

def escapeText (s : List Char) : List Char := (s.map escapeTextChar).flatten

def escapeAttrChar (c : Char) : List Char :=
  if c = '&' then "&amp;".data
  else if c = '<' then "&lt;".data
  else if c = '>' then "&gt;".data
  else if c = '"' then "&quot;".data
  else if c = '\n' then "&#10;".data
  else if c = '\t' then "&#9;".data
  else if c = '\r' then "&#13;".data
  else [c]

def escapeAttr (s : List Char) : List Char := (s.map escapeAttrChar).flatten

def renderAttrs : List (String × String) → List Char
  | [] => []
  | (k, v) :: rest => ' ' :: (k.data ++ '=' :: '"' :: (escapeAttr v.data ++ '"' :: renderAttrs rest))

def indentChars (depth : Nat) : List Char := List.replicate (2 * depth) ' '

mutual
def renderNode : Nat → XNode → List Char
  | _, .text s true => "<![CDATA[".data ++ (s.data ++ "]]>".data)
  | _, .text s false => escapeText s.data
  | _, .elem tag attrs [] => '<' :: (tag.data ++ (renderAttrs attrs ++ "/>".data))
  | depth, .elem tag attrs (c :: cs) =>
    if (c :: cs).any isTextNode then
      '<' :: (tag.data ++ (renderAttrs attrs ++ ('>' :: (renderInlineList (c :: cs) ++
        ('<' :: '/' :: (tag.data ++ ['>']))))))
    else
      '<' :: (tag.data ++ (renderAttrs attrs ++ ('>' :: (renderBlockList (depth + 1) (c :: cs) ++
        ('\n' :: (indentChars depth ++ ('<' :: '/' :: (tag.data ++ ['>']))))))))
def renderInlineList : List XNode → List Char
  | [] => []
  | c :: cs => renderNode 0 c ++ renderInlineList cs
def renderBlockList : Nat → List XNode → List Char
  | _, [] => []
  | depth, c :: cs =>
    '\n' :: (indentChars depth ++ (renderNode depth c ++ renderBlockList depth cs))
end

/-- The declaration line `<?xml version='1.0' encoding='utf-8'?>` followed by
a newline, as an explicit character list (`Char.ofNat 39` is the single
quote). -/
def xmlDeclChars : List Char :=
  ['<', '?', 'x', 'm', 'l', ' ', 'v', 'e', 'r', 's', 'i', 'o', 'n', '=', Char.ofNat 39,
   '1', '.', '0', Char.ofNat 39, ' ', 'e', 'n', 'c', 'o', 'd', 'i', 'n', 'g', '=',
   Char.ofNat 39, 'u', 't', 'f', '-', '8', Char.ofNat 39, '?', '>', '\n']

/-- The serialized document: declaration, pretty-printed root, final
newline. -/
def serializeDoc (root : XNode) : List Char :=
  xmlDeclChars ++ (renderNode 0 root ++ ['\n'])

/-! ## Parsing (`etree.parse(path, XMLParser(remove_blank_text=True))`,
source lines 74-101)

The parser model understands exactly the document shape the serializer emits:
declaration, elements with double-quoted attributes, character data with the
standard entities, CDATA sections.  Per lxml's defaults, CDATA sections are
dissolved into plain text (`strip_cdata`), and `remove_blank_text` discards
whitespace-only text runs.  A fuel argument makes the recursion structural;
the top level passes `length + 1` fuel, which the parser can never exhaust
since every recursive call consumes input. -/

def nameChar (c : Char) : Bool := c.isAlphanum || c = ':' || c = '-' || c = '_' || c = '.'

def isXmlSpace (c : Char) : Bool := c = ' ' || c = '\t' || c = '\n' || c = '\r'

def isBlankRun (s : List Char) : Bool := s.all isXmlSpace

/-- Decode one entity reference, the input starting just past the `&`:
the decoded character and the input past the `;`. -/
def entityStep (rest : List Char) : Option (Char × List Char) :=
  if ['a', 'm', 'p', ';'].isPrefixOf rest then some ('&', rest.drop 4)
  else if ['l', 't', ';'].isPrefixOf rest then some ('<', rest.drop 3)
  else if ['g', 't', ';'].isPrefixOf rest then some ('>', rest.drop 3)
  else if ['q', 'u', 'o', 't', ';'].isPrefixOf rest then some ('"', rest.drop 5)
  else if ['a', 'p', 'o', 's', ';'].isPrefixOf rest then some (Char.ofNat 39, rest.drop 5)
  else if ['#', '1', '3', ';'].isPrefixOf rest then some ('\r', rest.drop 4)
  else if ['#', '1', '0', ';'].isPrefixOf rest then some ('\n', rest.drop 4)
  else if ['#', '9', ';'].isPrefixOf rest then some ('\t', rest.drop 3)
  else none

/-- Character data up to the next `<`, with entities decoded.  The fuel only
makes the recursion structural; every step consumes input, so `length + 1`
fuel can never run out. -/
def parseTextRunF : Nat → List Char → Option (List Char × List Char)
  | 0, _ => none
  | _ + 1, [] => some ([], [])
  | fuel + 1, c :: rest =>
    if c = '<' then some ([], c :: rest)
    else if c = '&' then
      match entityStep rest with
      | some (ch, rest2) => (parseTextRunF fuel rest2).map (fun p => (ch :: p.1, p.2))
      | none => none
    else (parseTextRunF fuel rest).map (fun p => (c :: p.1, p.2))

def parseTextRun (s : List Char) : Option (List Char × List Char) :=
  parseTextRunF (s.length + 1) s

/-- An attribute value up to and past the closing double quote, with entities
decoded; fueled like `parseTextRunF`. -/
def parseAttrValueRunF : Nat → List Char → Option (List Char × List Char)
  | 0, _ => none
  | _ + 1, [] => none
  | fuel + 1, c :: rest =>
    if c = '"' then some ([], rest)
    else if c = '<' then none
    else if c = '&' then
      match entityStep rest with
      | some (ch, rest2) => (parseAttrValueRunF fuel rest2).map (fun p => (ch :: p.1, p.2))
      | none => none
    else (parseAttrValueRunF fuel rest).map (fun p => (c :: p.1, p.2))

def parseAttrValueRun (s : List Char) : Option (List Char × List Char) :=
  parseAttrValueRunF (s.length + 1) s

/-- The longest prefix of name characters. -/
def takeName : List Char → List Char × List Char
  | [] => ([], [])
  | c :: rest =>
    if nameChar c then
      match takeName rest with
      | (n, r) => (c :: n, r)
    else ([], c :: rest)

def parseAttrList : Nat → List Char → Option (List (String × String) × List Char)
  | 0, _ => none
  | _ + 1, [] => none
  | fuel + 1, c :: rest =>
    if isXmlSpace c then parseAttrList fuel rest
    else if c = '/' || c = '>' then some ([], c :: rest)
    else
      match takeName (c :: rest) with
      | ([], _) => none
      | (n, r1) =>
        match r1 with
        | c1 :: c2 :: r2 =>
          if c1 = '=' then
            if c2 = '"' then
              match parseAttrValueRun r2 with
              | none => none
              | some (v, r3) =>
                match parseAttrList fuel r3 with
                | none => none
                | some (attrs, r4) => some ((String.mk n, String.mk v) :: attrs, r4)
            else none
          else none
        | _ => none

/-- The body of a CDATA section, up to and past `]]>`. -/
def splitCdata : List Char → Option (List Char × List Char)
  | [] => none
  | ']' :: ']' :: '>' :: rest => some ([], rest)
  | c :: rest => (splitCdata rest).map (fun p => (c :: p.1, p.2))

mutual
/-- An element, the input starting at its tag name: name, attributes, then
either `/>` or `>`, content and the matching close tag. -/
def parseElemCore : Nat → List Char → Option (XNode × List Char)
  | 0, _ => none
  | fuel + 1, s =>
    match takeName s with
    | ([], _) => none
    | (n, r1) =>
      match parseAttrList fuel r1 with
      | none => none
      | some (attrs, r2) =>
        match r2 with
        | [] => none
        | c1 :: r2' =>
          if c1 = '/' then
            match r2' with
            | [] => none
            | c2 :: r3 => if c2 = '>' then some (.elem (String.mk n) attrs [], r3) else none
          else if c1 = '>' then
            match parseContentF fuel r2' with
            | none => none
            | some (children, r4) =>
              match r4 with
              | [] => none
              | c3 :: r4' =>
                if c3 = '<' then
                  match r4' with
                  | [] => none
                  | c4 :: r5 =>
                    if c4 = '/' then
                      match takeName r5 with
                      | (_, []) => none
                      | (m, c5 :: r6) =>
                        if c5 = '>' then
                          if n == m then some (.elem (String.mk n) attrs children, r6)
                          else none
                        else none
                    else none
                else none
          else none
/-- One node, the input starting just past its opening `<`: a CDATA section
(dissolved into plain text by `strip_cdata`), or an element. -/
def parseElemAfterLt : Nat → List Char → Option (XNode × List Char)
  | 0, _ => none
  | fuel + 1, s =>
    if ['!', '[', 'C', 'D', 'A', 'T', 'A', '['].isPrefixOf s then
      match splitCdata (s.drop 8) with
      | some (content, r2) => some (.text (String.mk content) false, r2)
      | none => none
    else parseElemCore fuel s
/-- Child content up to (but not past) the enclosing close tag: child
elements, CDATA sections and text runs, whitespace-only runs being discarded
(`remove_blank_text`). -/
def parseContentF : Nat → List Char → Option (List XNode × List Char)
  | 0, _ => none
  | _ + 1, [] => none
  | fuel + 1, c :: rest =>
    if c = '<' then
      if rest.head? = some '/' then some ([], '<' :: rest)
      else
        match parseElemAfterLt fuel rest with
        | none => none
        | some (node, r2) =>
          match parseContentF fuel r2 with
          | none => none
          | some (nodes, r3) => some (node :: nodes, r3)
    else
      match parseTextRun (c :: rest) with
      | none => none
      | some (t, r2) =>
        match parseContentF fuel r2 with
        | none => none
        | some (nodes, r3) =>
          if isBlankRun t then some (nodes, r3)
          else some (.text (String.mk t) false :: nodes, r3)
end

def parseNodeF (fuel : Nat) : List Char → Option (XNode × List Char)
  | c :: rest => if c = '<' then parseElemAfterLt fuel rest else none
  | [] => none

def dropDecl : List Char → List Char
  | [] => []
  | c :: rest =>
    if c = '?' ∧ rest.head? = some '>' then rest.tail else dropDecl rest

def skipXmlDecl (s : List Char) : List Char :=
  if ['<', '?', 'x', 'm', 'l'].isPrefixOf s then dropDecl (s.drop 5) else s

/-- Model of loading a document: `none` is the `XMLSyntaxError` case. -/
def xmlParse (s : List Char) : Option XNode :=
  match parseNodeF (s.length + 1) ((skipXmlDecl s).dropWhile isXmlSpace) with
  | some (root, rest) =>
    if (rest.dropWhile isXmlSpace).isEmpty && isElemNode root then some root else none
  | none => none

/-! ## Parsed normal form and parser correctness on serializer output -/

theorem string_eta (s : String) : String.mk s.data = s := rfl

/-- A usable tag or attribute name: nonempty and made of name characters. -/
def validName (s : String) : Prop := s.data ≠ [] ∧ s.data.all nameChar = true

instance (s : String) : Decidable (validName s) := by unfold validName; infer_instance

/-- Parsed normal form: the shape `xmlParse` produces on feed documents — an
element holds either a single non-blank plain-text run, or nothing, or child
elements only; no CDATA flags, no whitespace-only text nodes, no mixed
content; names are usable tag/attribute names. -/
inductive NFElem : XNode → Prop
  | leaf (t : String) (attrs : List (String × String)) (s : String) :
      validName t → (∀ p ∈ attrs, validName p.1) → isBlankRun s.data = false →
      NFElem (.elem t attrs [.text s false])
  | empty (t : String) (attrs : List (String × String)) :
      validName t → (∀ p ∈ attrs, validName p.1) →
      NFElem (.elem t attrs [])
  | block (t : String) (attrs : List (String × String)) (cs : List XNode) :
      validName t → (∀ p ∈ attrs, validName p.1) → cs ≠ [] →
      (∀ c ∈ cs, isElemNode c = true) →
      (∀ c ∈ cs, NFElem c) →
      NFElem (.elem t attrs cs)

theorem nameChar_ne {c : Char} (d : Char) (h : nameChar c = true)
    (hd : nameChar d = false) : c ≠ d := by
  intro he
  rw [he, hd] at h
  cases h

theorem nameChar_not_space {c : Char} (h : nameChar c = true) : isXmlSpace c = false := by
  cases hs : isXmlSpace c
  · rfl
  · exfalso
    unfold isXmlSpace at hs
    simp only [Bool.or_eq_true, decide_eq_true_eq] at hs
    rcases hs with ((rfl | rfl) | rfl) | rfl <;> cases h

theorem entityStep_amp (X : List Char) :
    entityStep ('a' :: 'm' :: 'p' :: ';' :: X) = some ('&', X) := by
  unfold entityStep
  rw [if_pos (by simp [List.isPrefixOf])]
  rfl

theorem entityStep_lt (X : List Char) :
    entityStep ('l' :: 't' :: ';' :: X) = some ('<', X) := by
  unfold entityStep
  rw [if_neg (by simp [List.isPrefixOf])]
  rw [if_pos (by simp [List.isPrefixOf])]
  rfl

theorem entityStep_gt (X : List Char) :
    entityStep ('g' :: 't' :: ';' :: X) = some ('>', X) := by
  unfold entityStep
  rw [if_neg (by simp [List.isPrefixOf])]
  rw [if_neg (by simp [List.isPrefixOf])]
  rw [if_pos (by simp [List.isPrefixOf])]
  rfl

theorem entityStep_quot (X : List Char) :
    entityStep ('q' :: 'u' :: 'o' :: 't' :: ';' :: X) = some ('"', X) := by
  unfold entityStep
  rw [if_neg (by simp [List.isPrefixOf])]
  rw [if_neg (by simp [List.isPrefixOf])]
  rw [if_neg (by simp [List.isPrefixOf])]
  rw [if_pos (by simp [List.isPrefixOf])]
  rfl

theorem entityStep_cr (X : List Char) :
    entityStep ('#' :: '1' :: '3' :: ';' :: X) = some ('\r', X) := by
  unfold entityStep
  rw [if_neg (by simp [List.isPrefixOf])]
  rw [if_neg (by simp [List.isPrefixOf])]
  rw [if_neg (by simp [List.isPrefixOf])]
  rw [if_neg (by simp [List.isPrefixOf])]
  rw [if_neg (by simp [List.isPrefixOf])]
  rw [if_pos (by simp [List.isPrefixOf])]
  rfl

theorem entityStep_nl (X : List Char) :
    entityStep ('#' :: '1' :: '0' :: ';' :: X) = some ('\n', X) := by
  unfold entityStep
  rw [if_neg (by simp [List.isPrefixOf])]
  rw [if_neg (by simp [List.isPrefixOf])]
  rw [if_neg (by simp [List.isPrefixOf])]
  rw [if_neg (by simp [List.isPrefixOf])]
  rw [if_neg (by simp [List.isPrefixOf])]
  rw [if_neg (by simp [List.isPrefixOf])]
  rw [if_pos (by simp [List.isPrefixOf])]
  rfl

theorem entityStep_tab (X : List Char) :
    entityStep ('#' :: '9' :: ';' :: X) = some ('\t', X) := by
  unfold entityStep
  rw [if_neg (by simp [List.isPrefixOf])]
  rw [if_neg (by simp [List.isPrefixOf])]
  rw [if_neg (by simp [List.isPrefixOf])]
  rw [if_neg (by simp [List.isPrefixOf])]
  rw [if_neg (by simp [List.isPrefixOf])]
  rw [if_neg (by simp [List.isPrefixOf])]
  rw [if_neg (by simp [List.isPrefixOf])]
  rw [if_pos (by simp [List.isPrefixOf])]
  rfl

theorem parseTextRunF_plain_cons (fuel : Nat) {c : Char} (rest : List Char)
    (h1 : c ≠ '<') (h2 : c ≠ '&') :
    parseTextRunF (fuel + 1) (c :: rest) =
      (parseTextRunF fuel rest).map (fun p => (c :: p.1, p.2)) := by
  rw [parseTextRunF.eq_def]
  dsimp only
  rw [if_neg h1, if_neg h2]

theorem parseTextRunF_lt (fuel : Nat) (r : List Char) :
    parseTextRunF (fuel + 1) ('<' :: r) = some ([], '<' :: r) := by
  rw [parseTextRunF.eq_def]
  dsimp only
  rw [if_pos rfl]

theorem parseTextRunF_amp (fuel : Nat) (rest : List Char) :
    parseTextRunF (fuel + 1) ('&' :: rest) =
      match entityStep rest with
      | some (ch, rest2) => (parseTextRunF fuel rest2).map (fun p => (ch :: p.1, p.2))
      | none => none := by
  rw [parseTextRunF.eq_def]
  dsimp only
  rw [if_neg (by decide), if_pos rfl]

theorem escapeText_nil : escapeText [] = [] := rfl

theorem escapeText_cons (c : Char) (cs : List Char) :
    escapeText (c :: cs) = escapeTextChar c ++ escapeText cs := by
  simp [escapeText]

theorem parseTextRunF_escape (s r : List Char) : ∀ fuel, (escapeText s).length + 1 ≤ fuel →
    parseTextRunF fuel (escapeText s ++ '<' :: r) = some (s, '<' :: r) := by
  induction s with
  | nil =>
    intro fuel hf
    obtain ⟨f, rfl⟩ : ∃ f, fuel = f + 1 := ⟨fuel - 1, by omega⟩
    rw [escapeText_nil, List.nil_append]
    exact parseTextRunF_lt f r
  | cons c cs ih =>
    intro fuel hf
    have hf2 : (escapeTextChar c).length + ((escapeText cs).length + 1) ≤ fuel := by
      rw [escapeText_cons, List.length_append] at hf
      omega
    obtain ⟨f, rfl⟩ : ∃ f, fuel = f + 1 := ⟨fuel - 1, by omega⟩
    rw [escapeText_cons, List.append_assoc]
    by_cases h1 : c = '&'
    · subst h1
      show parseTextRunF (f + 1) ('&' :: ('a' :: 'm' :: 'p' :: ';' :: (escapeText cs ++ '<' :: r))) = _
      rw [parseTextRunF_amp, entityStep_amp]
      dsimp only
      rw [ih f (by rw [show escapeTextChar '&' = '&' :: 'a' :: 'm' :: 'p' :: [';'] from rfl] at hf2; simp at hf2; omega)]
      rfl
    · by_cases h2 : c = '<'
      · subst h2
        show parseTextRunF (f + 1) ('&' :: ('l' :: 't' :: ';' :: (escapeText cs ++ '<' :: r))) = _
        rw [parseTextRunF_amp, entityStep_lt]
        dsimp only
        rw [ih f (by rw [show escapeTextChar '<' = '&' :: 'l' :: 't' :: [';'] from rfl] at hf2; simp at hf2; omega)]
        rfl
      · by_cases h3 : c = '>'
        · subst h3
          show parseTextRunF (f + 1) ('&' :: ('g' :: 't' :: ';' :: (escapeText cs ++ '<' :: r))) = _
          rw [parseTextRunF_amp, entityStep_gt]
          dsimp only
          rw [ih f (by rw [show escapeTextChar '>' = '&' :: 'g' :: 't' :: [';'] from rfl] at hf2; simp at hf2; omega)]
          rfl
        · by_cases h4 : c = '\r'
          · subst h4
            show parseTextRunF (f + 1)
              ('&' :: ('#' :: '1' :: '3' :: ';' :: (escapeText cs ++ '<' :: r))) = _
            rw [parseTextRunF_amp, entityStep_cr]
            dsimp only
            rw [ih f (by rw [show escapeTextChar '\r' = '&' :: '#' :: '1' :: '3' :: [';'] from rfl] at hf2; simp at hf2; omega)]
            rfl
          · have hch : escapeTextChar c = [c] := by
              simp [escapeTextChar, h1, h2, h3, h4]
            rw [hch] at hf2
            rw [hch, List.cons_append, List.nil_append, parseTextRunF_plain_cons f _ h2 h1,
              ih f (by simp at hf2; omega)]
            rfl

theorem parseTextRun_escape (s r : List Char) :
    parseTextRun (escapeText s ++ '<' :: r) = some (s, '<' :: r) := by
  unfold parseTextRun
  exact parseTextRunF_escape s r _ (by simp [List.length_append])

theorem parseTextRunF_stops (t : List Char) (hplain : ∀ c ∈ t, c ≠ '<' ∧ c ≠ '&')
    (r : List Char) : ∀ fuel, t.length + 1 ≤ fuel →
    parseTextRunF fuel (t ++ '<' :: r) = some (t, '<' :: r) := by
  induction t with
  | nil =>
    intro fuel hf
    obtain ⟨f, rfl⟩ : ∃ f, fuel = f + 1 := ⟨fuel - 1, by omega⟩
    rw [List.nil_append]
    exact parseTextRunF_lt f r
  | cons c cs ih =>
    intro fuel hf
    obtain ⟨f, rfl⟩ : ∃ f, fuel = f + 1 := ⟨fuel - 1, by omega⟩
    rw [List.cons_append,
      parseTextRunF_plain_cons f _ (hplain c (by simp)).1 (hplain c (by simp)).2,
      ih (fun d hd => hplain d (by simp [hd])) f (by simp at hf; omega)]
    rfl

theorem parseTextRun_stops (t : List Char) (hplain : ∀ c ∈ t, c ≠ '<' ∧ c ≠ '&')
    (r : List Char) : parseTextRun (t ++ '<' :: r) = some (t, '<' :: r) := by
  unfold parseTextRun
  exact parseTextRunF_stops t hplain r _ (by simp [List.length_append])

theorem parseAttrValueRunF_plain_cons (fuel : Nat) {c : Char} (rest : List Char)
    (h0 : c ≠ '"') (h1 : c ≠ '<') (h2 : c ≠ '&') :
    parseAttrValueRunF (fuel + 1) (c :: rest) =
      (parseAttrValueRunF fuel rest).map (fun p => (c :: p.1, p.2)) := by
  rw [parseAttrValueRunF.eq_def]
  dsimp only
  rw [if_neg h0, if_neg h1, if_neg h2]

theorem parseAttrValueRunF_close (fuel : Nat) (r : List Char) :
    parseAttrValueRunF (fuel + 1) ('"' :: r) = some ([], r) := by
  rw [parseAttrValueRunF.eq_def]
  dsimp only
  rw [if_pos rfl]

theorem parseAttrValueRunF_amp (fuel : Nat) (rest : List Char) :
    parseAttrValueRunF (fuel + 1) ('&' :: rest) =
      match entityStep rest with
      | some (ch, rest2) => (parseAttrValueRunF fuel rest2).map (fun p => (ch :: p.1, p.2))
      | none => none := by
  rw [parseAttrValueRunF.eq_def]
  dsimp only
  rw [if_neg (by decide), if_neg (by decide), if_pos rfl]

theorem escapeAttr_nil : escapeAttr [] = [] := rfl

theorem escapeAttr_cons (c : Char) (cs : List Char) :
    escapeAttr (c :: cs) = escapeAttrChar c ++ escapeAttr cs := by
  simp [escapeAttr]

theorem parseAttrValueRunF_escape (v r : List Char) : ∀ fuel, (escapeAttr v).length + 1 ≤ fuel →
    parseAttrValueRunF fuel (escapeAttr v ++ '"' :: r) = some (v, r) := by
  induction v with
  | nil =>
    intro fuel hf
    obtain ⟨f, rfl⟩ : ∃ f, fuel = f + 1 := ⟨fuel - 1, by omega⟩
    rw [escapeAttr_nil, List.nil_append]
    exact parseAttrValueRunF_close f r
  | cons c cs ih =>
    intro fuel hf
    have hf2 : (escapeAttrChar c).length + ((escapeAttr cs).length + 1) ≤ fuel := by
      rw [escapeAttr_cons, List.length_append] at hf
      omega
    obtain ⟨f, rfl⟩ : ∃ f, fuel = f + 1 := ⟨fuel - 1, by omega⟩
    rw [escapeAttr_cons, List.append_assoc]
    by_cases h1 : c = '&'
    · subst h1
      show parseAttrValueRunF (f + 1)
        ('&' :: ('a' :: 'm' :: 'p' :: ';' :: (escapeAttr cs ++ '"' :: r))) = _
      rw [parseAttrValueRunF_amp, entityStep_amp]
      dsimp only
      rw [ih f (by rw [show escapeAttrChar '&' = '&' :: 'a' :: 'm' :: 'p' :: [';'] from rfl] at hf2; simp at hf2; omega)]
      rfl
    · by_cases h2 : c = '<'
      · subst h2
        show parseAttrValueRunF (f + 1)
          ('&' :: ('l' :: 't' :: ';' :: (escapeAttr cs ++ '"' :: r))) = _
        rw [parseAttrValueRunF_amp, entityStep_lt]
        dsimp only
        rw [ih f (by rw [show escapeAttrChar '<' = '&' :: 'l' :: 't' :: [';'] from rfl] at hf2; simp at hf2; omega)]
        rfl
      · by_cases h3 : c = '>'
        · subst h3
          show parseAttrValueRunF (f + 1)
            ('&' :: ('g' :: 't' :: ';' :: (escapeAttr cs ++ '"' :: r))) = _
          rw [parseAttrValueRunF_amp, entityStep_gt]
          dsimp only
          rw [ih f (by rw [show escapeAttrChar '>' = '&' :: 'g' :: 't' :: [';'] from rfl] at hf2; simp at hf2; omega)]
          rfl
        · by_cases h4 : c = '"'
          · subst h4
            show parseAttrValueRunF (f + 1)
              ('&' :: ('q' :: 'u' :: 'o' :: 't' :: ';' :: (escapeAttr cs ++ '"' :: r))) = _
            rw [parseAttrValueRunF_amp, entityStep_quot]
            dsimp only
            rw [ih f (by rw [show escapeAttrChar '"' = '&' :: 'q' :: 'u' :: 'o' :: 't' :: [';'] from rfl] at hf2; simp at hf2; omega)]
            rfl
          · by_cases h5 : c = '\n'
            · subst h5
              show parseAttrValueRunF (f + 1)
                ('&' :: ('#' :: '1' :: '0' :: ';' :: (escapeAttr cs ++ '"' :: r))) = _
              rw [parseAttrValueRunF_amp, entityStep_nl]
              dsimp only
              rw [ih f (by rw [show escapeAttrChar '\n' = '&' :: '#' :: '1' :: '0' :: [';'] from rfl] at hf2; simp at hf2; omega)]
              rfl
            · by_cases h6 : c = '\t'
              · subst h6
                show parseAttrValueRunF (f + 1)
                  ('&' :: ('#' :: '9' :: ';' :: (escapeAttr cs ++ '"' :: r))) = _
                rw [parseAttrValueRunF_amp, entityStep_tab]
                dsimp only
                rw [ih f (by rw [show escapeAttrChar '\t' = '&' :: '#' :: '9' :: [';'] from rfl] at hf2; simp at hf2; omega)]
                rfl
              · by_cases h7 : c = '\r'
                · subst h7
                  show parseAttrValueRunF (f + 1)
                    ('&' :: ('#' :: '1' :: '3' :: ';' :: (escapeAttr cs ++ '"' :: r))) = _
                  rw [parseAttrValueRunF_amp, entityStep_cr]
                  dsimp only
                  rw [ih f (by rw [show escapeAttrChar '\r' = '&' :: '#' :: '1' :: '3' :: [';'] from rfl] at hf2; simp at hf2; omega)]
                  rfl
                · have hch : escapeAttrChar c = [c] := by
                    simp [escapeAttrChar, h1, h2, h3, h4, h5, h6, h7]
                  rw [hch] at hf2
                  rw [hch, List.cons_append, List.nil_append,
                    parseAttrValueRunF_plain_cons f _ h4 h2 h1,
                    ih f (by simp at hf2; omega)]
                  rfl

theorem parseAttrValueRun_escape (v r : List Char) :
    parseAttrValueRun (escapeAttr v ++ '"' :: r) = some (v, r) := by
  unfold parseAttrValueRun
  exact parseAttrValueRunF_escape v r _ (by simp [List.length_append])

/-- Whether the input cannot continue a name (empty or a non-name head). -/
def headStopsName : List Char → Bool
  | [] => true
  | c :: _ => !(nameChar c)

theorem takeName_spec (n r : List Char) (hn : n.all nameChar = true)
    (hr : headStopsName r = true) : takeName (n ++ r) = (n, r) := by
  induction n with
  | nil =>
    rw [List.nil_append]
    cases r with
    | nil => rfl
    | cons c rest =>
      unfold headStopsName at hr
      unfold takeName
      rw [if_neg]
      simp only [Bool.not_eq_true'] at hr
      rw [hr]
      simp
  | cons c cs ih =>
    rw [List.cons_append]
    unfold takeName
    simp only [List.all_cons, Bool.and_eq_true] at hn
    rw [if_pos hn.1, ih hn.2]


theorem isElemNode_not_text {c : XNode} (h : isElemNode c = true) : isTextNode c = false := by
  cases c <;> simp_all [isElemNode, isTextNode]

theorem any_isTextNode_false {cs : List XNode} (h : ∀ c ∈ cs, isElemNode c = true) :
    cs.any isTextNode = false := by
  induction cs with
  | nil => rfl
  | cons c cs ih =>
    simp only [List.any_cons, Bool.or_eq_false_iff]
    exact ⟨isElemNode_not_text (h c (by simp)), ih (fun d hd => h d (by simp [hd]))⟩

theorem renderNode_empty (depth : Nat) (t : String) (a : List (String × String)) :
    renderNode depth (.elem t a []) = '<' :: (t.data ++ (renderAttrs a ++ ['/', '>'])) := by
  simp [renderNode]

theorem renderNode_leaf (depth : Nat) (t : String) (a : List (String × String)) (s : String) :
    renderNode depth (.elem t a [.text s false]) =
      '<' :: (t.data ++ (renderAttrs a ++ ('>' :: (escapeText s.data ++
        ('<' :: '/' :: (t.data ++ ['>'])))))) := by
  simp [renderNode, renderInlineList, isTextNode]

theorem renderNode_block (depth : Nat) (t : String) (a : List (String × String))
    {cs : List XNode} (hne : cs ≠ []) (hel : ∀ c ∈ cs, isElemNode c = true) :
    renderNode depth (.elem t a cs) =
      '<' :: (t.data ++ (renderAttrs a ++ ('>' :: (renderBlockList (depth + 1) cs ++
        ('\n' :: (indentChars depth ++ ('<' :: '/' :: (t.data ++ ['>'])))))))) := by
  rcases cs with _ | ⟨c, cs'⟩
  · exact absurd rfl hne
  · have hany : (c :: cs').any isTextNode = false := any_isTextNode_false hel
    simp [renderNode, hany]

theorem renderBlockList_nil (depth : Nat) : renderBlockList depth [] = [] := by
  simp [renderBlockList]

theorem renderBlockList_cons (depth : Nat) (c : XNode) (cs : List XNode) :
    renderBlockList depth (c :: cs) =
      '\n' :: (indentChars depth ++ (renderNode depth c ++ renderBlockList depth cs)) := by
  simp [renderBlockList]

theorem parseAttrList_render (attrs : List (String × String)) (r : List Char)
    (ha : ∀ p ∈ attrs, validName p.1)
    (hr : r.head? = some '/' ∨ r.head? = some '>') :
    ∀ fuel, (renderAttrs attrs).length + r.length + 1 ≤ fuel →
    parseAttrList fuel (renderAttrs attrs ++ r) = some (attrs, r) := by
  induction attrs with
  | nil =>
    intro fuel hf
    obtain ⟨f, rfl⟩ : ∃ f, fuel = f + 1 := ⟨fuel - 1, by omega⟩
    rcases r with _ | ⟨c, rest⟩
    · simp at hr
    · have hc : c = '/' ∨ c = '>' := by
        rcases hr with h | h
        · left
          simpa using h
        · right
          simpa using h
      show parseAttrList (f + 1) (renderAttrs [] ++ c :: rest) = some ([], c :: rest)
      rw [show renderAttrs [] = [] from rfl, List.nil_append, parseAttrList.eq_def]
      dsimp only
      rw [if_neg (by rcases hc with rfl | rfl <;> decide), if_pos (by rcases hc with rfl | rfl <;> simp)]
  | cons p ps ih =>
    intro fuel hf
    obtain ⟨k, v⟩ := p
    have hk : validName k := ha (k, v) (by simp)
    obtain ⟨kc, krest, hkd⟩ : ∃ kc krest, k.data = kc :: krest := by
      rcases hkd : k.data with _ | ⟨kc, krest⟩
      · exact absurd hkd hk.1
      · exact ⟨kc, krest, rfl⟩
    have hkall : (kc :: krest).all nameChar = true := by rw [← hkd]; exact hk.2
    have hkc : nameChar kc = true := by
      simp only [List.all_cons, Bool.and_eq_true] at hkall
      exact hkall.1
    have hra : renderAttrs ((k, v) :: ps) =
        ' ' :: (k.data ++ ('=' :: '"' :: (escapeAttr v.data ++ ('"' :: renderAttrs ps)))) := by
      simp [renderAttrs]
    have hlen : (renderAttrs ((k, v) :: ps)).length =
        1 + k.data.length + 2 + (escapeAttr v.data).length + 1 + (renderAttrs ps).length := by
      rw [hra]
      simp [List.length_append]
      omega
    obtain ⟨f, rfl⟩ : ∃ f, fuel = f + 1 := ⟨fuel - 1, by omega⟩
    rw [hra, List.cons_append, parseAttrList.eq_def]
    dsimp only
    rw [if_pos (by decide)]
    obtain ⟨f2, rfl⟩ : ∃ f2, f = f2 + 1 := ⟨f - 1, by omega⟩
    rw [List.append_assoc, hkd, List.cons_append, parseAttrList.eq_def]
    dsimp only
    rw [if_neg (by rw [nameChar_not_space hkc]; simp),
      if_neg (by simp [nameChar_ne '/' hkc (by decide), nameChar_ne '>' hkc (by decide)])]
    rw [show (kc :: (krest ++ ('=' :: '"' :: (escapeAttr v.data ++ ('"' :: renderAttrs ps)) ++ r))) =
      ((kc :: krest) ++ ('=' :: '"' :: (escapeAttr v.data ++ ('"' :: (renderAttrs ps ++ r)))))
      from by simp]
    rw [takeName_spec (kc :: krest) _ hkall (by rfl)]
    dsimp only
    rw [show parseAttrValueRun (escapeAttr v.data ++ ('"' :: (renderAttrs ps ++ r))) =
      some (v.data, renderAttrs ps ++ r) from parseAttrValueRun_escape v.data (renderAttrs ps ++ r)]
    rw [if_pos rfl, if_pos rfl]
    dsimp only
    rw [ih (fun q hq => ha q (by simp [hq])) f2 (by omega)]
    dsimp only
    rw [show String.mk (kc :: krest) = k from by rw [← hkd], string_eta]


theorem isXmlSpace_ne {c : Char} (h : isXmlSpace c = true) : c ≠ '<' ∧ c ≠ '&' := by
  unfold isXmlSpace at h
  simp only [Bool.or_eq_true, decide_eq_true_eq] at h
  rcases h with ((rfl | rfl) | rfl) | rfl <;> exact ⟨by decide, by decide⟩

theorem indentChars_blank (d : Nat) : ∀ c ∈ indentChars d, isXmlSpace c = true := by
  intro c hc
  unfold indentChars at hc
  rw [List.eq_of_mem_replicate hc]
  rfl

theorem isBlankRun_newline_indent (d : Nat) : isBlankRun ('\n' :: indentChars d) = true := by
  unfold isBlankRun
  rw [List.all_cons]
  simp only [Bool.and_eq_true]
  exact ⟨rfl, List.all_eq_true.mpr (indentChars_blank d)⟩

theorem nonempty_of_not_blank {s : List Char} (h : isBlankRun s = false) : s ≠ [] := by
  intro he
  rw [he] at h
  cases h

theorem escapeText_head (c0 : Char) (cs0 : List Char) :
    ∃ h0 t0, escapeText (c0 :: cs0) = h0 :: t0 ∧ h0 ≠ '<' := by
  rw [escapeText_cons]
  by_cases h1 : c0 = '&'
  · exact ⟨'&', _, by subst h1; rfl, by decide⟩
  · by_cases h2 : c0 = '<'
    · exact ⟨'&', _, by subst h2; rfl, by decide⟩
    · by_cases h3 : c0 = '>'
      · exact ⟨'&', _, by subst h3; rfl, by decide⟩
      · by_cases h4 : c0 = '\r'
        · exact ⟨'&', _, by subst h4; rfl, by decide⟩
        · refine ⟨c0, escapeText cs0, ?_, h2⟩
          rw [show escapeTextChar c0 = [c0] from by simp [escapeTextChar, h1, h2, h3, h4]]
          rfl

theorem nfElem_isElem {c : XNode} (h : NFElem c) : isElemNode c = true := by
  cases h <;> rfl

theorem validName_cons {t : String} (h : validName t) :
    ∃ c0 r0, t.data = c0 :: r0 ∧ nameChar c0 = true ∧ (c0 :: r0).all nameChar = true := by
  rcases hd : t.data with _ | ⟨c0, r0⟩
  · exact absurd hd h.1
  · have hall : (c0 :: r0).all nameChar = true := by rw [← hd]; exact h.2
    have hc0 : nameChar c0 = true := by
      simp only [List.all_cons, Bool.and_eq_true] at hall
      exact hall.1
    exact ⟨c0, r0, rfl, hc0, hall⟩

theorem headStopsName_renderAttrs (attrs : List (String × String)) (c : Char)
    (hc : nameChar c = false) (X : List Char) :
    headStopsName (renderAttrs attrs ++ c :: X) = true := by
  cases attrs with
  | nil =>
    show headStopsName (c :: X) = true
    unfold headStopsName
    dsimp only
    rw [hc]
    rfl
  | cons p ps =>
    obtain ⟨k, v⟩ := p
    show headStopsName (' ' :: _ ++ c :: X) = true
    rfl

theorem cdata_prefix_false {c0 : Char} (h : c0 ≠ '!') (X : List Char) :
    (['!', '[', 'C', 'D', 'A', 'T', 'A', '['].isPrefixOf (c0 :: X)) = false := by
  cases hp : (['!', '[', 'C', 'D', 'A', 'T', 'A', '['].isPrefixOf (c0 :: X))
  · rfl
  · exfalso
    simp only [List.isPrefixOf, Bool.and_eq_true, beq_iff_eq] at hp
    exact h hp.1.symm

theorem renderNode_shape {c : XNode} (h : NFElem c) (depth : Nat) :
    ∃ c0 body0, renderNode depth c = '<' :: c0 :: body0 ∧ nameChar c0 = true := by
  cases h with
  | leaf t attrs s hn ha hs =>
    obtain ⟨c0, r0, hd, hc0, _⟩ := validName_cons hn
    have h := renderNode_leaf depth t attrs s
    rw [hd] at h
    simp only [List.cons_append] at h
    exact ⟨c0, _, h, hc0⟩
  | empty t attrs hn ha =>
    obtain ⟨c0, r0, hd, hc0, _⟩ := validName_cons hn
    have h := renderNode_empty depth t attrs
    rw [hd] at h
    simp only [List.cons_append] at h
    exact ⟨c0, _, h, hc0⟩
  | block t attrs cs hn ha hne hel hnf =>
    obtain ⟨c0, r0, hd, hc0, _⟩ := validName_cons hn
    have h := renderNode_block depth t attrs hne hel
    rw [hd] at h
    simp only [List.cons_append] at h
    exact ⟨c0, _, h, hc0⟩

theorem parseContentF_stop (Y : List Char) (f : Nat) :
    parseContentF (f + 1) ('<' :: '/' :: Y) = some ([], '<' :: '/' :: Y) := by
  rw [parseContentF.eq_def]
  dsimp only
  rw [if_pos rfl]
  rw [if_pos (show ('/' :: Y).head? = some '/' from rfl)]

theorem parseContentF_blank (b : List Char) (hb : b ≠ []) (hbl : isBlankRun b = true)
    (X : List Char) (f : Nat) :
    parseContentF (f + 1) (b ++ '<' :: X) = parseContentF f ('<' :: X) := by
  rcases b with _ | ⟨b0, b'⟩
  · exact absurd rfl hb
  · have hb0 : isXmlSpace b0 = true := by
      unfold isBlankRun at hbl
      simp only [List.all_cons, Bool.and_eq_true] at hbl
      exact hbl.1
    have hplain : ∀ c ∈ b0 :: b', c ≠ '<' ∧ c ≠ '&' := by
      intro c hc
      refine isXmlSpace_ne ?_
      unfold isBlankRun at hbl
      exact List.all_eq_true.mp hbl c hc
    rw [List.cons_append, parseContentF.eq_def]
    dsimp only
    rw [if_neg (hplain b0 (by simp)).1]
    rw [show parseTextRun (b0 :: (b' ++ '<' :: X)) = some (b0 :: b', '<' :: X) from by
      rw [← List.cons_append]
      exact parseTextRun_stops _ hplain X]
    dsimp only
    cases hpc : parseContentF f ('<' :: X) with
    | none => rfl
    | some p =>
      obtain ⟨nodes, r3⟩ := p
      dsimp only
      rw [if_pos hbl]

theorem parseContentF_text (s : String) (hs : isBlankRun s.data = false) (Y : List Char) :
    ∀ fuel, (escapeText s.data).length + Y.length + 12 ≤ fuel →
    parseContentF fuel (escapeText s.data ++ ('<' :: '/' :: Y)) =
      some ([.text s false], '<' :: '/' :: Y) := by
  intro fuel hf
  obtain ⟨f, rfl⟩ : ∃ f, fuel = f + 1 := ⟨fuel - 1, by omega⟩
  rcases hd : s.data with _ | ⟨c0, cs0⟩
  · exact absurd hd (nonempty_of_not_blank hs)
  · obtain ⟨h0, t0, he, h0ne⟩ := escapeText_head c0 cs0
    rw [he, List.cons_append, parseContentF.eq_def]
    dsimp only
    rw [if_neg h0ne]
    rw [show parseTextRun (h0 :: (t0 ++ '<' :: '/' :: Y)) = some (s.data, '<' :: '/' :: Y) from by
      rw [← List.cons_append, ← he, ← hd]
      exact parseTextRun_escape s.data ('/' :: Y)]
    dsimp only
    obtain ⟨f2, rfl⟩ : ∃ f2, f = f2 + 1 := ⟨f - 1, by omega⟩
    rw [parseContentF_stop]
    dsimp only
    rw [if_neg (by rw [hs]; simp), string_eta]


theorem takeName_cons_spec {c0 : Char} {r0 : List Char}
    (hall : (c0 :: r0).all nameChar = true) {r : List Char}
    (hr : headStopsName r = true) : takeName (c0 :: (r0 ++ r)) = (c0 :: r0, r) := by
  have h := takeName_spec (c0 :: r0) r hall hr
  rwa [List.cons_append] at h

/-- Round-trip property of one node: parsing its rendering (just past the
leading `<`) with enough fuel recovers the node and leaves the rest intact. -/
def NodeP (c : XNode) : Prop :=
  ∀ depth fuel r body, renderNode depth c = '<' :: body →
    body.length + r.length + 10 ≤ fuel →
    parseElemAfterLt fuel (body ++ r) = some (c, r)

theorem parseElemAfterLt_empty (t : String) (attrs : List (String × String))
    (hn : validName t) (ha : ∀ p ∈ attrs, validName p.1) :
    ∀ fuel r, t.data.length + (renderAttrs attrs).length + r.length + 12 ≤ fuel →
    parseElemAfterLt fuel (t.data ++ (renderAttrs attrs ++ ('/' :: '>' :: r))) =
      some (.elem t attrs [], r) := by
  intro fuel r hf
  obtain ⟨c0, r0, hd, hc0, hall⟩ := validName_cons hn
  obtain ⟨f, rfl⟩ : ∃ f, fuel = f + 1 := ⟨fuel - 1, by omega⟩
  rw [hd]
  simp only [List.cons_append]
  rw [parseElemAfterLt.eq_def]
  dsimp only
  rw [if_neg (by rw [cdata_prefix_false (nameChar_ne '!' hc0 (by decide))]; simp)]
  obtain ⟨f1, rfl⟩ : ∃ f1, f = f1 + 1 := ⟨f - 1, by omega⟩
  rw [parseElemCore.eq_def]
  dsimp only
  rw [takeName_cons_spec hall (headStopsName_renderAttrs attrs '/' (by decide) _)]
  dsimp only
  rw [parseAttrList_render attrs ('/' :: '>' :: r) ha (Or.inl rfl) f1 (by
    simp only [List.length_cons] at hf ⊢
    omega)]
  dsimp only
  rw [if_pos rfl, if_pos rfl, ← hd, string_eta]


theorem parseElemAfterLt_content (t : String) (attrs : List (String × String))
    (children : List XNode) (content : List Char)
    (hn : validName t) (ha : ∀ p ∈ attrs, validName p.1)
    (hcont : ∀ Y fuel2, content.length + Y.length + 12 ≤ fuel2 →
      parseContentF fuel2 (content ++ ('<' :: '/' :: Y)) = some (children, '<' :: '/' :: Y)) :
    ∀ fuel r,
      t.data.length + (renderAttrs attrs).length + content.length +
        t.data.length + r.length + 14 ≤ fuel →
    parseElemAfterLt fuel
      (t.data ++ (renderAttrs attrs ++
        ('>' :: (content ++ ('<' :: '/' :: (t.data ++ ('>' :: r))))))) =
      some (.elem t attrs children, r) := by
  intro fuel r hf
  obtain ⟨c0, r0, hd, hc0, hall⟩ := validName_cons hn
  have hlen : t.data.length = r0.length + 1 := by rw [hd]; simp
  obtain ⟨f, rfl⟩ : ∃ f, fuel = f + 1 := ⟨fuel - 1, by omega⟩
  rw [hd]
  simp only [List.cons_append]
  rw [parseElemAfterLt.eq_def]
  dsimp only
  rw [if_neg (by rw [cdata_prefix_false (nameChar_ne '!' hc0 (by decide))]; simp)]
  obtain ⟨f1, rfl⟩ : ∃ f1, f = f1 + 1 := ⟨f - 1, by omega⟩
  rw [parseElemCore.eq_def]
  dsimp only
  rw [takeName_cons_spec hall (headStopsName_renderAttrs attrs '>' (by decide) _)]
  dsimp only
  rw [parseAttrList_render attrs
    ('>' :: (content ++ ('<' :: '/' :: (c0 :: (r0 ++ ('>' :: r)))))) ha (Or.inr rfl) f1 (by
      simp only [List.length_cons, List.length_append] at hf ⊢
      omega)]
  dsimp only
  rw [if_neg (by decide), if_pos rfl]
  rw [hcont (c0 :: (r0 ++ ('>' :: r))) f1 (by
    simp only [List.length_cons, List.length_append] at hf ⊢
    omega)]
  dsimp only
  rw [if_pos rfl, if_pos rfl]
  rw [takeName_cons_spec hall (show headStopsName ('>' :: r) = true from rfl)]
  dsimp only
  rw [if_pos rfl, if_pos (beq_self_eq_true (c0 :: r0)), ← hd, string_eta]


theorem parseContentF_blocklist : ∀ (cs : List XNode),
    (∀ c ∈ cs, NFElem c) → (∀ c ∈ cs, NodeP c) →
    ∀ dd dcl r fuel,
      (renderBlockList dd cs).length + (indentChars dcl).length + r.length + 13 ≤ fuel →
      parseContentF fuel
        (renderBlockList dd cs ++ ('\n' :: (indentChars dcl ++ ('<' :: '/' :: r)))) =
        some (cs, '<' :: '/' :: r) := by
  intro cs
  induction cs with
  | nil =>
    intro _ _ dd dcl r fuel hf
    rw [renderBlockList_nil, List.nil_append]
    obtain ⟨f, rfl⟩ : ∃ f, fuel = f + 1 := ⟨fuel - 1, by omega⟩
    rw [show '\n' :: (indentChars dcl ++ ('<' :: '/' :: r)) =
      ('\n' :: indentChars dcl) ++ '<' :: '/' :: r from by simp]
    rw [parseContentF_blank ('\n' :: indentChars dcl) (by simp)
      (isBlankRun_newline_indent dcl) ('/' :: r) f]
    obtain ⟨f2, rfl⟩ : ∃ f2, f = f2 + 1 := ⟨f - 1, by omega⟩
    exact parseContentF_stop r f2
  | cons c cs' ih =>
    intro hnf hP dd dcl r fuel hf
    obtain ⟨c0, body0, hb, hc0⟩ := renderNode_shape (hnf c (by simp)) dd
    rw [renderBlockList_cons, hb] at hf ⊢
    simp only [List.length_cons, List.length_append] at hf
    rw [show '\n' :: (indentChars dd ++ ('<' :: c0 :: body0 ++ renderBlockList dd cs')) ++
        ('\n' :: (indentChars dcl ++ ('<' :: '/' :: r))) =
      ('\n' :: indentChars dd) ++ '<' :: (c0 :: (body0 ++ (renderBlockList dd cs' ++
        ('\n' :: (indentChars dcl ++ ('<' :: '/' :: r)))))) from by simp]
    obtain ⟨f, rfl⟩ : ∃ f, fuel = f + 1 := ⟨fuel - 1, by omega⟩
    rw [parseContentF_blank ('\n' :: indentChars dd) (by simp)
      (isBlankRun_newline_indent dd) _ f]
    obtain ⟨f2, rfl⟩ : ∃ f2, f = f2 + 1 := ⟨f - 1, by omega⟩
    rw [parseContentF.eq_def]
    dsimp only
    rw [if_pos rfl]
    rw [if_neg (by
      simp only [List.head?_cons, Option.some.injEq]
      exact nameChar_ne '/' hc0 (by decide))]
    have hnode := hP c (by simp) dd f2
      (renderBlockList dd cs' ++ ('\n' :: (indentChars dcl ++ ('<' :: '/' :: r))))
      (c0 :: body0) hb (by
        simp only [List.length_cons, List.length_append]
        omega)
    rw [List.cons_append] at hnode
    rw [hnode]
    dsimp only
    rw [ih (fun x hx => hnf x (by simp [hx])) (fun x hx => hP x (by simp [hx]))
      dd dcl r f2 (by omega)]


theorem nfElem_nodeP {c : XNode} (h : NFElem c) : NodeP c := by
  induction h with
  | leaf t attrs s hn ha hs =>
    intro depth fuel r body hb hf
    rw [renderNode_leaf] at hb
    injection hb with _ hb2
    subst hb2
    simp only [List.append_assoc, List.cons_append, List.singleton_append]
    refine parseElemAfterLt_content t attrs [.text s false] (escapeText s.data) hn ha
      (fun Y fuel2 hf2 => parseContentF_text s hs Y fuel2 hf2) fuel r ?_
    simp only [List.length_append, List.length_cons, List.length_singleton] at hf ⊢
    omega
  | empty t attrs hn ha =>
    intro depth fuel r body hb hf
    rw [renderNode_empty] at hb
    injection hb with _ hb2
    subst hb2
    simp only [List.append_assoc, List.cons_append, List.singleton_append]
    refine parseElemAfterLt_empty t attrs hn ha fuel r ?_
    simp only [List.length_append, List.length_cons] at hf ⊢
    omega
  | block t attrs cs hn ha hne hel hnf ih =>
    intro depth fuel r body hb hf
    rw [renderNode_block depth t attrs hne hel] at hb
    injection hb with _ hb2
    subst hb2
    simp only [List.append_assoc, List.cons_append, List.singleton_append]
    have hmain := parseElemAfterLt_content t attrs cs
      (renderBlockList (depth + 1) cs ++ ('\n' :: indentChars depth)) hn ha
      (fun Y fuel2 hf2 => by
        have hb2 := parseContentF_blocklist cs hnf ih (depth + 1) depth Y fuel2 (by
          simp only [List.length_append, List.length_cons] at hf2 ⊢
          omega)
        rw [show renderBlockList (depth + 1) cs ++ ('\n' :: (indentChars depth ++
            ('<' :: '/' :: Y))) =
          (renderBlockList (depth + 1) cs ++ ('\n' :: indentChars depth)) ++
            ('<' :: '/' :: Y) from by simp] at hb2
        exact hb2) fuel r (by
          simp only [List.length_append, List.length_cons] at hf ⊢
          omega)
    rw [show (renderBlockList (depth + 1) cs ++ ('\n' :: indentChars depth)) ++
        ('<' :: '/' :: (t.data ++ ('>' :: r))) =
      renderBlockList (depth + 1) cs ++ ('\n' :: (indentChars depth ++
        ('<' :: '/' :: (t.data ++ ('>' :: r))))) from by simp] at hmain
    exact hmain


/-- The 31 characters of the declaration between `<?xml` and `?>`. -/
def declMid : List Char :=
  [' ', 'v', 'e', 'r', 's', 'i', 'o', 'n', '=', Char.ofNat 39, '1', '.', '0', Char.ofNat 39,
   ' ', 'e', 'n', 'c', 'o', 'd', 'i', 'n', 'g', '=', Char.ofNat 39, 'u', 't', 'f', '-', '8',
   Char.ofNat 39]

theorem xmlDeclChars_decomp :
    xmlDeclChars = ['<', '?', 'x', 'm', 'l'] ++ (declMid ++ ('?' :: '>' :: ['\n'])) := by
  decide

theorem declMid_no_q : ∀ c ∈ declMid, c ≠ '?' := by decide

theorem dropDecl_no_q (l : List Char) (hl : ∀ c ∈ l, c ≠ '?') (X : List Char) :
    dropDecl (l ++ '?' :: '>' :: X) = X := by
  induction l with
  | nil =>
    rw [List.nil_append, dropDecl.eq_def]
    dsimp only
    rw [if_pos ⟨rfl, rfl⟩]
    rfl
  | cons c l' ih =>
    rw [List.cons_append, dropDecl.eq_def]
    dsimp only
    rw [if_neg (fun hq => hl c (by simp) hq.1)]
    exact ih (fun x hx => hl x (by simp [hx]))

theorem skipXmlDecl_serialize (X : List Char) :
    skipXmlDecl (xmlDeclChars ++ X) = '\n' :: X := by
  rw [xmlDeclChars_decomp]
  simp only [List.append_assoc, List.cons_append, List.singleton_append, List.nil_append]
  unfold skipXmlDecl
  rw [if_pos (by simp [List.isPrefixOf])]
  simp only [List.drop_succ_cons, List.drop_zero]
  exact dropDecl_no_q declMid declMid_no_q ('\n' :: X)

/-- Loading the serializer's output recovers the document exactly, for any
document in parsed normal form. -/
theorem xmlParse_serializeDoc {d : XNode} (h : NFElem d) :
    xmlParse (serializeDoc d) = some d := by
  obtain ⟨c0, body0, hb, hc0⟩ := renderNode_shape h 0
  have h39 : xmlDeclChars.length = 39 := rfl
  have hrl : (renderNode 0 d).length = body0.length + 2 := by rw [hb]; simp
  unfold xmlParse serializeDoc
  rw [skipXmlDecl_serialize]
  rw [List.dropWhile_cons, if_pos (show isXmlSpace '\n' = true from rfl), hb]
  simp only [List.cons_append]
  rw [List.dropWhile_cons, if_neg (show ¬(isXmlSpace '<' = true) from by decide)]
  rw [parseNodeF.eq_def]
  dsimp only
  rw [if_pos rfl]
  have hNP := nfElem_nodeP h 0 ((xmlDeclChars ++ '<' :: c0 :: (body0 ++ ['\n'])).length + 1)
    ['\n'] (c0 :: body0) hb (by
      simp only [List.length_append, List.length_cons, List.length_nil, h39]
      omega)
  rw [List.cons_append] at hNP
  rw [hNP]
  dsimp only
  rw [if_pos (by rw [show (List.dropWhile isXmlSpace ['\n']).isEmpty = true from rfl,
    nfElem_isElem h]; rfl)]

/-! ## The updater pipeline (source lines 28-54 and 146-206) -/

/-- The `UpdateInfo` dataclass, with exactly the fields declared at source
lines 28-35.  Note that there is no `name` field, although `main` passes a
`name=` keyword and `create_or_load_xml` reads `update_info.name`. -/
structure UpdateInfo where
  version : String
  dmg_path : String
  release_notes : String
  file_size : String
  signature : String

/-- The Python exceptions arising in a run.  `appcastError context cause`
stands for `AppcastError(f"{context}: {cause}")`, keeping the wrapped
exception structurally instead of formatting it into the message. -/
inductive PyExc where
  | xmlSyntaxError
  | osError
  | attributeError
  | typeError
  | appcastError (context : String) (cause : PyExc)
deriving Repr, DecidableEq

/-- The filesystem state a run sees and produces: the bytes at the appcast
path if that file exists, the readable files' contents by path (the artifact
to hash among them; `none` models any `IOError` on open or read), and the
`datetime.now().strftime('%a, %d %b %Y %H:%M:%S +0000')` string of the moment
the run builds its `pubDate`. -/
structure World where
  appcast : Option (List Char)
  files : String → Option (List Nat)
  nowString : String

/-- The updater object: `__init__` keeps the appcast path (carried here by
`World`) and the base URL stripped of trailing slashes. -/
structure AppcastUpdater where
  base_url : String

/-- Python `base_url.rstrip('/')`. -/
def rstripSlashes (s : String) : String :=
  String.mk ((s.data.reverse.dropWhile (fun c => c = '/')).reverse)

/-- Model of `AppcastUpdater(appcast_path, base_url)` (lines 50-54). -/
def initUpdater (base_url : String) : AppcastUpdater := ⟨rstripSlashes base_url⟩

/-- Stages a run has completed, in order. -/
inductive RunEvent where
  | resolved
  | hashed
  | wrote
deriving Repr, DecidableEq

/-- Outcome of `add_update`: the raised exception or unit, the resulting
filesystem, and the trace of stages that were invoked. -/
structure RunResult where
  result : Except PyExc Unit
  world : World
  events : List RunEvent

instance {ε α : Type} [DecidableEq ε] [DecidableEq α] : DecidableEq (Except ε α) := fun a b =>
  match a, b with
  | .error e1, .error e2 =>
    if h : e1 = e2 then isTrue (by rw [h])
    else isFalse (fun hc => h (by injection hc))
  | .error _, .ok _ => isFalse (fun hc => Except.noConfusion hc)
  | .ok _, .error _ => isFalse (fun hc => Except.noConfusion hc)
  | .ok a1, .ok a2 =>
    if h : a1 = a2 then isTrue (by rw [h])
    else isFalse (fun hc => h (by injection hc))

/-- Model of `calculate_file_hash` (lines 56-65): stream the file and hash it
with SHA-256 (hashing the 4096-byte reads in sequence equals hashing the whole
content); an unreadable file raises `IOError`, caught and re-raised as
`AppcastError("Failed to calculate file hash: ...")`. -/
def calculate_file_hash (w : World) (file_path : String) : Except PyExc String :=
  match w.files file_path with
  | some bytes => .ok (sha256hex bytes)
  | none => .error (.appcastError "Failed to calculate file hash" .osError)

/-- Model of `create_or_load_xml` (lines 74-101).  With an existing file the
document is parsed, a syntax error being caught (as `etree.ParseError`) and
re-raised as `AppcastError("Failed to create/load XML: ...")`.  Without an
existing file the source builds `rss` and `channel` elements and then formats
`f'{update_info.name} Updates'` — but `UpdateInfo` has no `name` attribute, so
Python raises `AttributeError`, which the `except (etree.ParseError, OSError)`
handler does not catch; the fresh-document branch therefore never returns. -/
def create_or_load_xml (w : World) (_update_info : UpdateInfo) : Except PyExc XNode :=
  match w.appcast with
  | some bytes =>
    match xmlParse bytes with
    | some root => .ok root
    | none => .error (.appcastError "Failed to create/load XML" .xmlSyntaxError)
  | none => .error .attributeError

/-- Python `os.path.basename` for POSIX paths. -/
def basename (p : String) : String := (p.splitOn "/").getLastD ""

/-- Model of `create_enclosure` (lines 110-129): the enclosure element with
its plain and sparkle-namespaced attributes, in insertion order.  The source
mutates `item`; the model returns the node for the caller to append. -/
def create_enclosure (u : AppcastUpdater) (update_info : UpdateInfo) (file_hash : String) :
    XNode :=
  XNode.elem "enclosure"
    [("url", u.base_url ++ "/" ++ basename update_info.dmg_path),
     ("length", update_info.file_size),
     ("type", "application/x-apple-diskimage"),
     (sparkleName "version", update_info.version),
     (sparkleName "shortVersionString", update_info.version),
     (sparkleName "sha256", file_hash),
     (sparkleName "edSignature", update_info.signature),
     (sparkleName "length", update_info.file_size)] []

/-- Model of constructing `CDATA(x)`: lxml passes the argument through
`_utf8`, which raises `TypeError` when `x` is `None` (a missing `.text`). -/
def mkCDATA : Option String → Except PyExc String
  | some s => .ok s
  | none => .error .typeError

/-- Model of `element.set(key, CDATA(...))` (source line 184): lxml attribute
values must be `str`, `bytes` or `QName`; `_setAttributeValue` passes the
value through `_utf8`, which raises `TypeError` for a `CDATA` object.  The
call can therefore never succeed. -/
def elementSetCData (_item : XNode) (_key : String) (_value : String) : Except PyExc XNode :=
  .error .typeError

/-- Model of the re-append loop (lines 183-185): for each sorted item run
`sorted_item.set('description', CDATA(sorted_item.find('description').text))`
and append the item back to the channel.  `find` returning `None` makes
`.text` raise `AttributeError`; otherwise the `set` call raises `TypeError`
as described at `elementSetCData`. -/
def reorderLoop (channel : XNode) : List XNode → Except PyExc XNode
  | [] => .ok channel
  | sorted_item :: rest =>
    match findChild sorted_item "description" with
    | none => .error .attributeError
    | some d =>
      match mkCDATA (elemText d) with
      | .error e => .error e
      | .ok cd =>
        match elementSetCData sorted_item "description" cd with
        | .error e => .error e
        | .ok item2 => reorderLoop (appendChild channel item2) rest

/-- Model of `write_xml` (lines 194-206): serialize and overwrite the appcast
path (the write itself is modelled as always succeeding; no claim concerns
`IOError` on write). -/
def write_xml (root : XNode) : List Char := serializeDoc root

/-- The new entry node built at lines 153-173: title `Version {version}`,
the formatted `pubDate`, the enclosure, the two sparkle-namespaced version
child elements, and the release notes as a CDATA description. -/
def mkNewItem (u : AppcastUpdater) (update_info : UpdateInfo) (now file_hash : String) : XNode :=
  XNode.elem "item" []
    [XNode.elem "title" [] [.text ("Version " ++ update_info.version) false],
     XNode.elem "pubDate" [] [.text now false],
     create_enclosure u update_info file_hash,
     XNode.elem (sparkleName "version") [] [.text update_info.version false],
     XNode.elem (sparkleName "shortVersionString") [] [.text update_info.version false],
     XNode.elem "description" [] [.text update_info.release_notes true]]

/-- Model of `add_update` (lines 146-192).  The stages run in source order:
resolve the document, locate the channel, build the new item (computing the
artifact hash on the way), append it, sort all items, rebuild the channel in
sorted order, serialize.  Any exception is wrapped into
`AppcastError(f"Failed to add update: {e}")`.  When hashing fails, the new
item's already-built `title`/`pubDate` children exist only in the discarded
in-memory tree, so the model's early error return is observably equal. -/
def add_update (u : AppcastUpdater) (w : World) (update_info : UpdateInfo) : RunResult :=
  match create_or_load_xml w update_info with
  | .error e => ⟨.error (.appcastError "Failed to add update" e), w, []⟩
  | .ok root =>
    match findChild root "channel" with
    | none =>
      -- `etree.SubElement(None, 'item')` raises TypeError
      ⟨.error (.appcastError "Failed to add update" .typeError), w, [.resolved]⟩
    | some channel =>
      match calculate_file_hash w update_info.dmg_path with
      | .error e => ⟨.error (.appcastError "Failed to add update" e), w, [.resolved, .hashed]⟩
      | .ok file_hash =>
        let newItem := mkNewItem u update_info w.nowString file_hash
        let channel1 := appendChild channel newItem
        let items := sort_items channel1
        if items.isEmpty then
          let root1 := replaceChannel root channel1
          ⟨.ok (), { w with appcast := some (write_xml root1) }, [.resolved, .hashed, .wrote]⟩
        else
          match reorderLoop (removeItemChildren channel1) items with
          | .error e =>
            ⟨.error (.appcastError "Failed to add update" e), w, [.resolved, .hashed]⟩
          | .ok channel2 =>
            let root2 := replaceChannel root channel2
            ⟨.ok (), { w with appcast := some (write_xml root2) }, [.resolved, .hashed, .wrote]⟩

/-! ## Supporting lemmas about the pipeline -/

theorem findChild_eq_elem {x : XNode} {t : String} {c : XNode}
    (h : findChild x t = some c) : ∃ attrs cs, c = .elem t attrs cs := by
  unfold findChild at h
  match x with
  | .text _ _ => cases h
  | .elem _ _ children =>
    have hp := List.find?_some h
    match c with
    | .text _ _ => simp [hasTag] at hp
    | .elem tg a cs =>
      simp only [hasTag, beq_iff_eq] at hp
      exact ⟨a, cs, by rw [hp]⟩

theorem findAllChildren_appendChild (t : String) (a : List (String × String))
    (cs : List XNode) (c : XNode) (tag : String) (hc : hasTag tag c = true) :
    findAllChildren (appendChild (.elem t a cs) c) tag =
      findAllChildren (.elem t a cs) tag ++ [c] := by
  simp [findAllChildren, appendChild, List.filter_append, hc]

theorem sort_items_not_empty {channel : XNode}
    (h : findAllChildren channel "item" ≠ []) : (sort_items channel).isEmpty = false := by
  unfold sort_items
  rw [if_neg (by simpa [List.isEmpty_iff] using h)]
  cases hs : (List.insertionSort itemGE (findAllChildren channel "item")).isEmpty
  · rfl
  · exfalso
    have hnil : List.insertionSort itemGE (findAllChildren channel "item") = [] := by
      simpa [List.isEmpty_iff] using hs
    have hlen := List.length_insertionSort itemGE (findAllChildren channel "item")
    rw [hnil] at hlen
    simp only [List.length_nil] at hlen
    exact h (List.eq_nil_of_length_eq_zero hlen.symm)

theorem reorderLoop_cons_error (ch it : XNode) (rest : List XNode) :
    ∃ e, reorderLoop ch (it :: rest) = .error e := by
  unfold reorderLoop
  cases h : findChild it "description" with
  | none => exact ⟨.attributeError, by simp [h]⟩
  | some d =>
    cases h2 : elemText d with
    | none => exact ⟨.typeError, by simp [h, h2, mkCDATA]⟩
    | some s => exact ⟨.typeError, by simp [h, h2, mkCDATA, elementSetCData]⟩

/-! ## Concrete fixtures shared by several claims -/

/-- An item whose enclosure carries the well-formed version `"0"`, which
parses to the one-component tuple `(0,)`. -/
def itemVerZero : XNode :=
  .elem "item" [] [.elem "enclosure" [(sparkleName "version", "0")] []]

/-- An item whose enclosure carries the malformed version `"beta"`. -/
def itemVerBeta : XNode :=
  .elem "item" [] [.elem "enclosure" [(sparkleName "version", "beta")] []]

/-- An item whose enclosure carries the well-formed version `"1.0"`. -/
def itemVerOne : XNode :=
  .elem "item" [] [.elem "enclosure" [(sparkleName "version", "1.0")] []]

/-- A channel holding the three fixture items in document order. -/
def channelThree : XNode := .elem "channel" [] [itemVerZero, itemVerBeta, itemVerOne]

/-! ## The claims -/

/-- C8: for well-formed version strings (every dot-separated component an
integer), comparing the `version_to_tuple` results is exactly the numeric
component-wise lexicographic order in which a shorter tuple is below a longer
one extending it; in particular `"2.10"` compares above `"2.9"` and `"1.0"`
below `"1.0.1"`. -/
theorem C8_wellformed_order : ∀ (u v : String) (cu cv : List Int),
    (splitDot u).mapM pyint = some cu → (splitDot v).mapM pyint = some cv →
    ((tupLt (version_to_tuple u) (version_to_tuple v) = true ↔ List.Lex (· < ·) cu cv) ∧
     tupLt (version_to_tuple "2.9") (version_to_tuple "2.10") = true ∧
     tupLt (version_to_tuple "1.0") (version_to_tuple "1.0.1") = true) := by
  intro u v cu cv hu hv
  refine ⟨?_, by decide, by decide⟩
  unfold version_to_tuple
  rw [hu, hv]
  exact tupLt_iff_lex cu cv

/-- Witness for C8 at `"2.9"` and `"2.10"`. -/
theorem C8_wellformed_order_witness :
    (tupLt (version_to_tuple "2.9") (version_to_tuple "2.10") = true ↔
      List.Lex (· < ·) [(2 : Int), 9] [2, 10]) ∧
    tupLt (version_to_tuple "2.9") (version_to_tuple "2.10") = true ∧
    tupLt (version_to_tuple "1.0") (version_to_tuple "1.0.1") = true :=
  C8_wellformed_order "2.9" "2.10" [2, 9] [2, 10] (by decide) (by decide)

/-- C9: the descending sort of `sort_items` is stable: two items of the
pre-sort child sequence with equal parsed version tuples appear in the sorted
result in their original relative order. -/
theorem C9_sort_stable : ∀ (channel : XNode) (a b : XNode),
    get_version a = get_version b →
    [a, b].Sublist (findAllChildren channel "item") →
    [a, b].Sublist (sort_items channel) := by
  intro channel a b hk hsub
  unfold sort_items
  rw [if_neg]
  · refine List.pair_sublist_insertionSort ?_ hsub
    show ¬ tupLt (get_version a) (get_version b) = true
    rw [hk, tupLt_irrefl]
    simp
  · intro hempty
    rw [List.isEmpty_iff] at hempty
    rw [hempty] at hsub
    cases hsub

/-- Witness for C9: two items with equal version `"1.0"` but different
content keep their relative order below the higher `"2.0"` release. -/
theorem C9_sort_stable_witness :
    [XNode.elem "item" [] [.elem "enclosure" [(sparkleName "version", "1.0"), ("id", "first")] []],
     XNode.elem "item" [] [.elem "enclosure" [(sparkleName "version", "1.0"), ("id", "second")] []]].Sublist
      (sort_items (.elem "channel" []
        [.elem "item" [] [.elem "enclosure" [(sparkleName "version", "1.0"), ("id", "first")] []],
         .elem "item" [] [.elem "enclosure" [(sparkleName "version", "2.0")] []],
         .elem "item" [] [.elem "enclosure" [(sparkleName "version", "1.0"), ("id", "second")] []]])) :=
  C9_sort_stable _ _ _ (by decide) (by decide)

/-- C3 counterexample: the claim "a malformed version is ordered below every
well-formed entry" fails.  `"beta"` is malformed and parses to `(0, 0)`, but
`"0"` is well-formed and parses to `(0,)`, which is *less* than `(0, 0)` in
tuple order; the descending sort therefore places the malformed entry above
the well-formed `"0"` entry. -/
theorem C3_counterexample :
    wellFormedVersion "beta" = false ∧ version_to_tuple "beta" = [0, 0] ∧
    wellFormedVersion "0" = true ∧ version_to_tuple "0" = [0] ∧
    tupLt (version_to_tuple "beta") (version_to_tuple "0") = false ∧
    sort_items channelThree = [itemVerOne, itemVerBeta, itemVerZero] := by decide

/-- C3 amended: every malformed version string parses to `(0, 0)`, and under
the descending sort a `(0, 0)`-keyed entry never precedes an entry whose
well-formed version parses to a tuple lexicographically greater than
`(0, 0)`. -/
theorem C3_malformed_low : ∀ s : String, wellFormedVersion s = false →
    version_to_tuple s = [0, 0] ∧
    ∀ (channel : XNode) (a b : XNode), get_version a = [0, 0] →
      List.Lex (· < ·) [0, 0] (get_version b) →
      ¬ [a, b].Sublist (sort_items channel) := by
  intro s hs
  constructor
  · unfold version_to_tuple
    unfold wellFormedVersion at hs
    cases hm : (splitDot s).mapM pyint with
    | none => simp
    | some l => rw [hm] at hs; simp at hs
  · intro channel a b ha hb hsub
    have hp : ([a, b]).Pairwise itemGE :=
      (sort_items_sorted channel).sublist hsub
    have hab : itemGE a b := (List.pairwise_cons.mp hp).1 b (by simp)
    apply hab
    rw [ha]
    exact (tupLt_iff_lex _ _).mpr hb

/-- Witness for C3 amended: the malformed `"beta"` entry never precedes the
well-formed `"1.0"` entry. -/
theorem C3_malformed_low_witness :
    version_to_tuple "beta" = [0, 0] ∧
    ¬ [itemVerBeta, itemVerOne].Sublist (sort_items channelThree) :=
  ⟨(C3_malformed_low "beta" (by decide)).1,
   (C3_malformed_low "beta" (by decide)).2 channelThree itemVerBeta itemVerOne
     (by decide) (by decide)⟩

/-- C2 (code bug): the claim describes the intended fresh-document synthesis,
but `UpdateInfo` has no `name` field (lines 28-35), while the fresh branch of
`create_or_load_xml` reads `update_info.name` (lines 89-90); Python raises
`AttributeError` there, uncaught by the branch's `except (etree.ParseError,
OSError)`, so when the output path does not exist the resolution step raises
instead of returning the one-channel skeleton, and `add_update` wraps the
exception into `AppcastError`.  (Even `main` cannot reach this point with a
name: `UpdateInfo(name=...)` itself raises `TypeError`.) -/
theorem C2_fresh_document_raises : ∀ (u : AppcastUpdater) (w : World) (ui : UpdateInfo),
    w.appcast = none →
    create_or_load_xml w ui = .error .attributeError ∧
    (add_update u w ui).result =
      .error (.appcastError "Failed to add update" .attributeError) ∧
    (add_update u w ui).world.appcast = none := by
  intro u w ui h
  refine ⟨?_, ?_, ?_⟩ <;> simp [create_or_load_xml, add_update, h]

/-- Witness for C2 at a concrete empty filesystem. -/
theorem C2_fresh_document_raises_witness :
    create_or_load_xml ⟨none, fun _ => none, "now"⟩ ⟨"1.0", "a.dmg", "n", "1", "s"⟩ =
      .error .attributeError ∧
    (add_update ⟨"https://x"⟩ ⟨none, fun _ => none, "now"⟩ ⟨"1.0", "a.dmg", "n", "1", "s"⟩).result =
      .error (.appcastError "Failed to add update" .attributeError) ∧
    (add_update ⟨"https://x"⟩ ⟨none, fun _ => none, "now"⟩
      ⟨"1.0", "a.dmg", "n", "1", "s"⟩).world.appcast = none :=
  C2_fresh_document_raises ⟨"https://x"⟩ ⟨none, fun _ => none, "now"⟩
    ⟨"1.0", "a.dmg", "n", "1", "s"⟩ rfl

/-- C7: with an existing document at the output path that fails to parse,
`add_update` raises the document error (`AppcastError("Failed to create/load
XML: ...")`, wrapped into `AppcastError("Failed to add update: ...")`), the
artifact-hashing stage is never invoked, and the on-disk document is
untouched. -/
theorem C7_malformed_document_first : ∀ (u : AppcastUpdater) (w : World) (ui : UpdateInfo)
    (bytes : List Char), w.appcast = some bytes → xmlParse bytes = none →
    (add_update u w ui).result =
      .error (.appcastError "Failed to add update"
        (.appcastError "Failed to create/load XML" .xmlSyntaxError)) ∧
    RunEvent.hashed ∉ (add_update u w ui).events ∧
    (add_update u w ui).world.appcast = some bytes := by
  intro u w ui bytes happ hparse
  refine ⟨?_, ?_, ?_⟩ <;> simp [add_update, create_or_load_xml, happ, hparse]

/-- Witness for C7 at a concrete malformed document. -/
theorem C7_malformed_document_first_witness :
    (add_update ⟨"https://x"⟩ ⟨some "not xml".data, fun _ => some [1], "now"⟩
      ⟨"1.0", "a.dmg", "n", "1", "s"⟩).result =
      .error (.appcastError "Failed to add update"
        (.appcastError "Failed to create/load XML" .xmlSyntaxError)) ∧
    RunEvent.hashed ∉ (add_update ⟨"https://x"⟩ ⟨some "not xml".data, fun _ => some [1], "now"⟩
      ⟨"1.0", "a.dmg", "n", "1", "s"⟩).events ∧
    (add_update ⟨"https://x"⟩ ⟨some "not xml".data, fun _ => some [1], "now"⟩
      ⟨"1.0", "a.dmg", "n", "1", "s"⟩).world.appcast = some "not xml".data :=
  C7_malformed_document_first ⟨"https://x"⟩ ⟨some "not xml".data, fun _ => some [1], "now"⟩
    ⟨"1.0", "a.dmg", "n", "1", "s"⟩ "not xml".data rfl (by decide)

/-- C6: with the output path holding a loadable feed document (so resolution
succeeds) and an artifact path that is not readable, the integrity step raises
the integrity error (`AppcastError("Failed to calculate file hash: ...")`
wrapping the `IOError`), `add_update` fails with that error wrapped into the
umbrella error, and the document at the output path keeps exactly its previous
content. -/
theorem C6_unreadable_artifact : ∀ (u : AppcastUpdater) (w : World) (ui : UpdateInfo)
    (bytes : List Char) (root channel : XNode),
    w.appcast = some bytes → xmlParse bytes = some root →
    findChild root "channel" = some channel →
    w.files ui.dmg_path = none →
    calculate_file_hash w ui.dmg_path =
      .error (.appcastError "Failed to calculate file hash" .osError) ∧
    (add_update u w ui).result =
      .error (.appcastError "Failed to add update"
        (.appcastError "Failed to calculate file hash" .osError)) ∧
    (add_update u w ui).world.appcast = some bytes ∧
    RunEvent.wrote ∉ (add_update u w ui).events := by
  intro u w ui bytes root channel happ hparse hch hfile
  have hload : create_or_load_xml w ui = .ok root := by
    simp [create_or_load_xml, happ, hparse]
  have hhash : calculate_file_hash w ui.dmg_path =
      .error (.appcastError "Failed to calculate file hash" .osError) := by
    simp [calculate_file_hash, hfile]
  refine ⟨hhash, ?_, ?_, ?_⟩ <;> simp [add_update, hload, hch, hhash, happ]

/-- A loadable one-channel document used by the C6 witness. -/
def bytesC6 : List Char := "<rss><channel><title>T</title></channel></rss>".data

/-- The world of the C6 witness: the document exists, no file is readable. -/
def worldC6 : World := ⟨some bytesC6, fun _ => none, "now"⟩

/-- Witness for C6 at a concrete world with an unreadable artifact. -/
theorem C6_unreadable_artifact_witness :
    calculate_file_hash worldC6 "a.dmg" =
      .error (.appcastError "Failed to calculate file hash" .osError) ∧
    (add_update ⟨"https://x"⟩ worldC6 ⟨"1.0", "a.dmg", "n", "1", "s"⟩).result =
      .error (.appcastError "Failed to add update"
        (.appcastError "Failed to calculate file hash" .osError)) ∧
    (add_update ⟨"https://x"⟩ worldC6 ⟨"1.0", "a.dmg", "n", "1", "s"⟩).world.appcast =
      some bytesC6 ∧
    RunEvent.wrote ∉ (add_update ⟨"https://x"⟩ worldC6 ⟨"1.0", "a.dmg", "n", "1", "s"⟩).events :=
  C6_unreadable_artifact ⟨"https://x"⟩ worldC6 ⟨"1.0", "a.dmg", "n", "1", "s"⟩ bytesC6
    (.elem "rss" [] [.elem "channel" [] [.elem "title" [] [.text "T" false]]])
    (.elem "channel" [] [.elem "title" [] [.text "T" false]])
    rfl (by decide) (by decide) rfl

/-- Whenever the run reaches the reorder loop (document loaded, channel found,
artifact hashed), the loop fails on its first item — `Element.set` rejects the
`CDATA` value with `TypeError`, or `.text` of a missing description raises
`AttributeError` — so `add_update` returns the wrapped error and leaves the
world unchanged. -/
theorem add_update_reorder_error (u : AppcastUpdater) (w : World) (ui : UpdateInfo)
    (bytes : List Char) (root : XNode) (ca : List (String × String)) (ccs : List XNode)
    (dmg : List Nat)
    (happ : w.appcast = some bytes) (hparse : xmlParse bytes = some root)
    (hch : findChild root "channel" = some (.elem "channel" ca ccs))
    (hfile : w.files ui.dmg_path = some dmg) :
    ∃ e, add_update u w ui =
      ⟨.error (.appcastError "Failed to add update" e), w, [.resolved, .hashed]⟩ := by
  have hload : create_or_load_xml w ui = .ok root := by
    simp [create_or_load_xml, happ, hparse]
  have hhash : calculate_file_hash w ui.dmg_path = .ok (sha256hex dmg) := by
    simp [calculate_file_hash, hfile]
  have hitem : hasTag "item" (mkNewItem u ui w.nowString (sha256hex dmg)) = true := rfl
  have hne : findAllChildren
      (appendChild (.elem "channel" ca ccs) (mkNewItem u ui w.nowString (sha256hex dmg)))
      "item" ≠ [] := by
    rw [findAllChildren_appendChild _ _ _ _ _ hitem]
    simp
  have hempty := sort_items_not_empty hne
  obtain ⟨i, rest, hs⟩ : ∃ i rest,
      sort_items (appendChild (.elem "channel" ca ccs)
        (mkNewItem u ui w.nowString (sha256hex dmg))) = i :: rest := by
    rcases hsi : sort_items (appendChild (.elem "channel" ca ccs)
        (mkNewItem u ui w.nowString (sha256hex dmg))) with _ | ⟨i, rest⟩
    · rw [hsi] at hempty
      simp [List.isEmpty] at hempty
    · exact ⟨i, rest, rfl⟩
  obtain ⟨e, he⟩ := reorderLoop_cons_error
    (removeItemChildren (appendChild (.elem "channel" ca ccs)
      (mkNewItem u ui w.nowString (sha256hex dmg)))) i rest
  refine ⟨e, ?_⟩
  simp only [add_update, hload, hch, hhash, hs, he, List.isEmpty_cons, Bool.false_eq_true,
    if_false]

/-- C10: against an existing feed document in which some pre-existing item has
no `description` child, `add_update` raises the umbrella `AppcastError` and
writes nothing, even with every caller-supplied input valid (readable
artifact, loadable document with a channel). -/
theorem C10_missing_description : ∀ (u : AppcastUpdater) (w : World) (ui : UpdateInfo)
    (bytes : List Char) (root channel : XNode) (dmg : List Nat),
    w.appcast = some bytes → xmlParse bytes = some root →
    findChild root "channel" = some channel →
    (∃ item ∈ findAllChildren channel "item", findChild item "description" = none) →
    w.files ui.dmg_path = some dmg →
    (∃ e, (add_update u w ui).result = .error (.appcastError "Failed to add update" e)) ∧
    (add_update u w ui).world.appcast = some bytes ∧
    RunEvent.wrote ∉ (add_update u w ui).events := by
  intro u w ui bytes root channel dmg happ hparse hch _hdesc hfile
  obtain ⟨ca, ccs, rfl⟩ := findChild_eq_elem hch
  obtain ⟨e, he⟩ := add_update_reorder_error u w ui bytes root ca ccs dmg happ hparse hch hfile
  rw [he]
  refine ⟨⟨e, rfl⟩, by simp [happ], by simp⟩

/-- A loadable document with an item that has no `description` child, and a
world where it exists and the artifact `a.dmg` is readable. -/
def bytesC10 : List Char :=
  "<rss><channel><item><enclosure sparkle:version=\"1.0\"/></item></channel></rss>".data

def worldC10 : World :=
  ⟨some bytesC10, fun p => if p = "a.dmg" then some [1, 2, 3] else none, "now"⟩

/-- Witness for C10 at a concrete document with a description-less item. -/
theorem C10_missing_description_witness :
    (∃ e, (add_update ⟨"https://x"⟩ worldC10 ⟨"2.0", "a.dmg", "n", "1", "s"⟩).result =
      .error (.appcastError "Failed to add update" e)) ∧
    (add_update ⟨"https://x"⟩ worldC10 ⟨"2.0", "a.dmg", "n", "1", "s"⟩).world.appcast =
      some bytesC10 ∧
    RunEvent.wrote ∉ (add_update ⟨"https://x"⟩ worldC10 ⟨"2.0", "a.dmg", "n", "1", "s"⟩).events :=
  C10_missing_description ⟨"https://x"⟩ worldC10 ⟨"2.0", "a.dmg", "n", "1", "s"⟩ bytesC10
    (.elem "rss" []
      [.elem "channel" [] [.elem "item" [] [.elem "enclosure" [("sparkle:version", "1.0")] []]]])
    (.elem "channel" [] [.elem "item" [] [.elem "enclosure" [("sparkle:version", "1.0")] []]])
    [1, 2, 3] rfl (by decide) (by decide) (by decide) (by decide)

/-- A pre-existing item carrying both an enclosure and a description, and its
channel; used by the C4 and C1 fixtures. -/
def itemWithDescription : XNode :=
  .elem "item" []
    [.elem "title" [] [.text "Version 1.0" false],
     .elem "enclosure" [(sparkleName "version", "1.0")] [],
     .elem "description" [] [.text "old notes" false]]

def channelOneItem : XNode := .elem "channel" [] [itemWithDescription]

/-- C4 (code bug): the reorder step does not merely change sequence
positions.  After removing the items, the loop at lines 183-185 executes
`sorted_item.set('description', CDATA(...))` on every item — an attribute
write, i.e. a content change even in intent — and lxml rejects the `CDATA`
value for an attribute with `TypeError`, so the step aborts on its very first
item (here a pre-existing item that does have a `description` child). -/
theorem C4_reorder_step_raises :
    (∀ item ∈ findAllChildren channelOneItem "item",
      (findChild item "description").isSome = true) ∧
    reorderLoop (removeItemChildren channelOneItem) (sort_items channelOneItem) =
      .error .typeError := by decide

/-- The C1 fixture: a loadable appcast holding the single `1.0` item, a
readable artifact for the new `2.0` release, and its release input. -/
def rootC1 : XNode :=
  .elem "rss" [("xmlns:sparkle", SPARKLE_NS), ("version", "2.0")] [channelOneItem]

def bytesC1 : List Char := serializeDoc rootC1

def worldC1 : World :=
  ⟨some bytesC1, fun p => if p = "MyApp-2.0.dmg" then some [1, 2, 3] else none,
   "Tue, 02 Jan 2024 03:04:05 +0000"⟩

def uiC1 : UpdateInfo := ⟨"2.0", "MyApp-2.0.dmg", "<p>notes</p>", "3", "sig"⟩

set_option maxRecDepth 100000 in
/-- C1 (code bug): a fully valid run — existing loadable document, readable
artifact, well-formed versions — still fails before writing: the reorder loop
raises `TypeError` (a `CDATA` object passed to `Element.set`), `add_update`
wraps it into the umbrella error, and nothing is persisted.  No run of
`add_update` completes successfully, so the persisted strictly-descending
order the claim asserts is never established by this code. -/
theorem C1_no_successful_run :
    (add_update (initUpdater "https://dl.example.com/") worldC1 uiC1).result =
      .error (.appcastError "Failed to add update" .typeError) ∧
    (add_update (initUpdater "https://dl.example.com/") worldC1 uiC1).world.appcast =
      some bytesC1 ∧
    RunEvent.wrote ∉ (add_update (initUpdater "https://dl.example.com/") worldC1 uiC1).events := by
  decide

/-! ## C5: the write→load→write round trip -/

def titleC5 : XNode := .elem "title" [] [.text "MyApp Updates" false]

def itemTitleC5 : XNode := .elem "title" [] [.text "Version 1.0" false]

def enclosureC5 : XNode := .elem "enclosure"
  [("url", "https://dl.example.com/MyApp-1.0.dmg"), ("sparkle:version", "1.0")] []

def itemC5 : XNode := .elem "item" [] [itemTitleC5, enclosureC5]

def channelC5 : XNode := .elem "channel" [] [titleC5, itemC5]

def docC5 : XNode := .elem "rss" [("version", "2.0")] [channelC5]

def uiC5 : UpdateInfo := ⟨"1.0", "MyApp-1.0.dmg", "<p>notes</p>", "3", "sig"⟩

theorem docC5_nf : NFElem docC5 := by
  have h1 : NFElem titleC5 := .leaf _ _ _ (by decide) (by decide) (by decide)
  have h2 : NFElem itemTitleC5 := .leaf _ _ _ (by decide) (by decide) (by decide)
  have h3 : NFElem enclosureC5 := .empty _ _ (by decide) (by decide)
  have h4 : NFElem itemC5 := by
    refine .block _ _ _ (by decide) (by decide) (by simp) (by decide) ?_
    intro c hc
    simp only [List.mem_cons, List.not_mem_nil, or_false] at hc
    rcases hc with rfl | rfl
    · exact h2
    · exact h3
  have h5 : NFElem channelC5 := by
    refine .block _ _ _ (by decide) (by decide) (by simp) (by decide) ?_
    intro c hc
    simp only [List.mem_cons, List.not_mem_nil, or_false] at hc
    rcases hc with rfl | rfl
    · exact h1
    · exact h4
  refine .block _ _ _ (by decide) (by decide) (by simp) (by decide) ?_
  intro c hc
  simp only [List.mem_cons, List.not_mem_nil, or_false] at hc
  subst hc
  exact h5

/-- C5 (amended): the write→load→write round trip is byte-stable exactly on
documents in parsed normal form (no CDATA sections, no blank or mixed text
runs, usable names).  For every such document, loading the serializer's
output through `create_or_load_xml` returns the document itself, so a second
`write_xml` emits identical bytes.  The unrestricted claim is refuted by the
counterexample: the serializer emits CDATA description sections, which the
loader dissolves into escaped plain text. -/
theorem C5_normal_form_roundtrip (d : XNode) (w : World) (ui : UpdateInfo)
    (hnf : NFElem d) (hw : w.appcast = some (write_xml d)) :
    ∃ root, create_or_load_xml w ui = Except.ok root ∧ write_xml root = write_xml d := by
  refine ⟨d, ?_, rfl⟩
  unfold create_or_load_xml
  rw [hw]
  unfold write_xml
  dsimp only
  rw [xmlParse_serializeDoc hnf]

theorem C5_normal_form_roundtrip_witness :
    NFElem docC5 ∧
    (⟨some (write_xml docC5), fun _ => none, ""⟩ : World).appcast = some (write_xml docC5) ∧
    ∃ root, create_or_load_xml ⟨some (write_xml docC5), fun _ => none, ""⟩ uiC5 =
        Except.ok root ∧ write_xml root = write_xml docC5 :=
  ⟨docC5_nf, rfl,
    C5_normal_form_roundtrip docC5 ⟨some (write_xml docC5), fun _ => none, ""⟩ uiC5
      docC5_nf rfl⟩

def docCdata : XNode := .elem "rss" [("version", "2.0")] [
  .elem "channel" [] [
    .elem "item" [] [
      .elem "description" [] [.text "Notes with <b>markup</b>" true]]]]

def docCdataLoaded : XNode := .elem "rss" [("version", "2.0")] [
  .elem "channel" [] [
    .elem "item" [] [
      .elem "description" [] [.text "Notes with <b>markup</b>" false]]]]

set_option maxRecDepth 100000 in
/-- C5 counterexample: a document the serializer itself wrote — one with a
CDATA description, the very shape `add_update` builds — loads successfully
but not to itself: `strip_cdata` dissolves the CDATA section into plain
text, and re-serializing escapes the markup, so the second write is not
byte-for-byte identical to the first. -/
theorem C5_cdata_drift :
    create_or_load_xml ⟨some (write_xml docCdata), fun _ => none, ""⟩ uiC5 =
      Except.ok docCdataLoaded ∧
    write_xml docCdataLoaded ≠ write_xml docCdata := by
  constructor
  · decide
  · decide

end Appcast
